import Mathlib

/-!
# ProstT5 prediction adapter (src/strucclustutils/ProstT5.cpp)

A shallow embedding of the token-level encode/decode layer of the ProstT5
adapter, followed by theorems about it.

Conventions of the embedding

* `std::string` is a Lean `String`, one Lean `Char` per C++ `char`;
  `s.length()` is `String.length`, `push_back` is `String.push`. A piece handed
  to the tokenizer is a text, and the word-boundary marker is one `Char` of it.
* `std::vector<T>` is a `List T`; `emplace_back x` is `v ++ [x]`.
* `size_t` values that are lengths of objects in memory are `Nat`; the index
  arithmetic of the argmax scan is reduced modulo `2 ^ 64` as `size_t` is.
* `uint32_t` is a `Nat` below `2 ^ 32`, `int` is an `Int`; the conversions
  between them are `toInt32` and `toUInt32`.
* `float` is the type `F32` below: only the comparison `>` of the source is
  needed, so a float is represented by its class (NaN, infinities) or, when
  finite, by its signed rank among the finite floats.
* The inference runtime (llama.cpp) is external: the vocabulary's tokenizer,
  the model metadata and the outcome of `llama_encode` are parameters carried
  by `llama_vocab`, `llama_model` and `llama_context`; the device registry of
  ggml is the parameter `ggml_backend_registry`, a null device handle is `none`.
* The `while` loop of `string_split` runs on fuel and returns an `Option`;
  positions in a string are `Nat`, `std::string::npos` is `2 ^ 64 - 1`.
-/

namespace ProstT5

/-! ## Machine scalars -/

/-- The C++ conversion `uint32_t -> int` (two's complement wrap-around). -/
def toInt32 (n : Nat) : Int :=
  if n % 2 ^ 32 < 2 ^ 31 then ((n % 2 ^ 32 : Nat) : Int) else ((n % 2 ^ 32 : Nat) : Int) - 2 ^ 32

/-- The C++ conversion `int -> unsigned int` (reduction modulo `2 ^ 32`). -/
def toUInt32 (z : Int) : Nat :=
  (z % 2 ^ 32).toNat

/-- A `float`. A finite float is `fin r` where `r` is its signed rank: the
magnitude bits `bits & 0x7fffffff` with the sign applied, so that `+0.0` and
`-0.0` are both `fin 0` and the order of ranks is the order of values. The
finite floats are the ranks between `-FLT_MAX_RANK` and `FLT_MAX_RANK`. -/
inductive F32 where
  | nan : F32
  | ninf : F32
  | fin : Int → F32
  | pinf : F32
deriving DecidableEq, Repr

/-- Rank of `FLT_MAX` (bit pattern `0x7f7fffff`). -/
def FLT_MAX_RANK : Int := 2139095039

/-- The value `std::numeric_limits<float>::lowest()`, that is `-FLT_MAX`. -/
def F32.lowest : F32 := F32.fin (-FLT_MAX_RANK)

/-- The C++ comparison `a > b` on floats: false as soon as one side is NaN. -/
def F32.gt : F32 → F32 → Bool
  | F32.nan, _ => false
  | _, F32.nan => false
  | F32.ninf, _ => false
  | F32.fin _, F32.ninf => true
  | F32.fin a, F32.fin b => decide (b < a)
  | F32.fin _, F32.pinf => false
  | F32.pinf, F32.pinf => false
  | F32.pinf, _ => true

/-- A finite float: neither NaN nor an infinity, rank within the float range. -/
def F32.isFinite : F32 → Bool
  | F32.fin r => decide (-FLT_MAX_RANK ≤ r) && decide (r ≤ FLT_MAX_RANK)
  | _ => false

/-! ## The external inference runtime -/

/-- A vocabulary token id (`int32_t`). -/
abbrev llama_token := Int

/-- The constant `LLAMA_TOKEN_NULL` of llama.h. -/
def LLAMA_TOKEN_NULL : llama_token := -1

/-- A vocabulary: its size (`llama_vocab_n_tokens`) and its tokenizer, which
gives for a text and the flags `add_special`, `parse_special` the full list of
tokens of that text. -/
structure llama_vocab where
  n_tokens : Int
  tokens : String → Bool → Bool → List llama_token

/-- The call `llama_tokenize(vocab, text, len, buf, n_tokens_max, add_special,
parse_special)` as llama.h documents it: the tokens are written to the buffer
and their number returned when they fit in `n_tokens_max` places; otherwise
nothing is written and the negated number of tokens is returned. The result is
the returned value and the written part of the buffer. -/
def llama_tokenize (vocab : llama_vocab) (text : String) (n_tokens_max : Nat)
    (add_special parse_special : Bool) : Int × List llama_token :=
  let ts := vocab.tokens text add_special parse_special
  if ts.length ≤ n_tokens_max then ((ts.length : Int), ts) else (-(ts.length : Int), [])

/-- A loaded model: its vocabulary and the metadata field read by
`llama_model_n_cls_out`, a `uint32_t`. -/
structure llama_model where
  vocab : llama_vocab
  n_cls_out : Nat
  n_cls_out_lt : n_cls_out < 2 ^ 32

/-- An execution context. `run` is what the runtime does with a batch: the
value `llama_encode` returns and the buffer `llama_get_embeddings` points to
afterwards (`none` for a null pointer). `embeddings` is the current output
buffer and `batches` lists the batches submitted to `llama_encode` so far. -/
structure llama_context where
  model : llama_model
  run : List llama_token → Int × Option (Nat → F32)
  embeddings : Option (Nat → F32)
  batches : List (List llama_token)

/-- The call `llama_encode(ctx, llama_batch_get_one(tokens, n))`: the returned
value and the context afterwards. -/
def llama_encode (ctx : llama_context) (batch : List llama_token) : Int × llama_context :=
  ((ctx.run batch).1,
    { ctx with embeddings := (ctx.run batch).2, batches := ctx.batches ++ [batch] })

/-- The call `llama_get_embeddings(ctx)`. -/
def llama_get_embeddings (ctx : llama_context) : Option (Nat → F32) :=
  ctx.embeddings

/-! ## ProstT5.cpp -/

/-- Source lines 8-32: `number_to_char(unsigned int n)`. -/
def number_to_char (n : Nat) : Char :=
  match n with
  | 0 => 'A'
  | 1 => 'C'
  | 2 => 'D'
  | 3 => 'E'
  | 4 => 'F'
  | 5 => 'G'
  | 6 => 'H'
  | 7 => 'I'
  | 8 => 'K'
  | 9 => 'L'
  | 10 => 'M'
  | 11 => 'N'
  | 12 => 'P'
  | 13 => 'Q'
  | 14 => 'R'
  | 15 => 'S'
  | 16 => 'T'
  | 17 => 'V'
  | 18 => 'W'
  | 19 => 'Y'
  | _ => 'X'

/-- Source lines 34-54: `token_from_piece(vocab, piece, parse_special)`. A
first attempt with a buffer of 8 tokens, a second one with a buffer of the
reported size when the first reports that the buffer was too small. -/
def token_from_piece (vocab : llama_vocab) (piece : String) (parse_special : Bool) :
    llama_token :=
  let r := llama_tokenize vocab piece 8 false parse_special
  if r.1 = 1 then r.2.getD 0 LLAMA_TOKEN_NULL
  else if r.1 < 0 then
    let r2 := llama_tokenize vocab piece (-r.1).toNat false parse_special
    if r2.1 = 1 then r2.2.getD 0 LLAMA_TOKEN_NULL else LLAMA_TOKEN_NULL
  else LLAMA_TOKEN_NULL

/-- Source lines 82-87 of `encode`: the class count used by the scan. -/
def n_classes_of (n_vocab : Int) (n_cls_out : Nat) : Nat :=
  let n_classes := if n_cls_out > 0 then n_cls_out else 20
  if n_classes = 1 ∧ n_vocab = 150 then 20 else n_classes

/-- Source line 88 of `encode`: `token_major = (n_vocab == 28)`. -/
def token_major_of (n_vocab : Int) : Bool :=
  decide (n_vocab = 28)

/-- Source line 93 of `encode`: the buffer index of class `i` at position `j`,
in `size_t` arithmetic. -/
def score_idx (token_major : Bool) (n_classes pred_len i j : Nat) : Nat :=
  if token_major then (j * n_classes + i) % 2 ^ 64 else (i * pred_len + j) % 2 ^ 64

/-- Source lines 93-97 of `encode`: the body of the inner loop, for class `i`
and position `j`, on the pair of vectors `(arg_max_idx, arg_max)`. -/
def scan_step (embeddings : Nat → F32) (token_major : Bool) (n_classes pred_len i : Nat)
    (st : List Int × List F32) (j : Nat) : List Int × List F32 :=
  let idx := score_idx token_major n_classes pred_len i j
  if F32.gt (embeddings idx) (st.2.getD j F32.nan) then
    (st.1.set j (toInt32 i), st.2.set j (embeddings idx))
  else st

/-- Source lines 89-99 of `encode`: both vectors are created with `pred_len`
entries (`0` and `lowest()`), then the loop over the classes `i` runs the loop
over the positions `j`. -/
def argmax_scan (embeddings : Nat → F32) (token_major : Bool) (n_classes pred_len : Nat) :
    List Int × List F32 :=
  (List.range n_classes).foldl
    (fun st i => (List.range pred_len).foldl
      (scan_step embeddings token_major n_classes pred_len i) st)
    (List.replicate pred_len (0 : Int), List.replicate pred_len F32.lowest)

/-- Source lines 100-102 of `encode`: the output loop. -/
def append_output (arg_max_idx : List Int) (output_len : Nat) (result : String) : String :=
  (List.range output_len).foldl
    (fun r i => r.push (number_to_char (toUInt32 (arg_max_idx.getD i 0)))) result

/-- What `encode` leaves behind: the returned status, the string `result`
(passed by reference) and the context. -/
structure encode_out where
  status : Int
  result : String
  ctx : llama_context

/-- Source lines 56-104: `encode(ctx, enc_input, pred_len, output_len, result)`. -/
def encode (ctx : llama_context) (enc_input : List llama_token) (pred_len output_len : Nat)
    (result : String) : encode_out :=
  let model := ctx.model
  let vocab := model.vocab
  let e := llama_encode ctx enc_input
  if e.1 < 0 then ⟨1, result, e.2⟩
  else
    match llama_get_embeddings e.2 with
    | none => ⟨1, result, e.2⟩
    | some embeddings =>
      if pred_len = 0 ∨ output_len = 0 then ⟨0, result, e.2⟩
      else
        let output_len := if output_len > pred_len then pred_len else output_len
        let n_vocab := vocab.n_tokens
        let n_cls_out := model.n_cls_out
        let n_classes := n_classes_of n_vocab n_cls_out
        let token_major := token_major_of n_vocab
        let arg_max_idx := (argmax_scan embeddings token_major n_classes pred_len).1
        ⟨0, append_output arg_max_idx output_len result, e.2⟩

/-- The C library function `toupper` in the "C" locale, on a `char`. -/
def toupper (c : Char) : Char :=
  if 97 ≤ c.toNat ∧ c.toNat ≤ 122 then Char.ofNat (c.toNat - 32) else c

/-- Source lines 238-248: the lambda `token_from_aa` of `predict`. -/
def token_from_aa (vocab : llama_vocab) (aa_char : Char) : llama_token :=
  let upper := toupper aa_char
  let piece := String.singleton upper
  let token := token_from_piece vocab piece false
  if token ≠ LLAMA_TOKEN_NULL then token
  else
    let sp_piece := "▁".push upper
    token_from_piece vocab sp_piece false

/-- The class `ProstT5Model`: owner of the loaded `llama_model`. -/
structure ProstT5Model where
  model : llama_model

end ProstT5

/-- The class `ProstT5`: a model handle and the context created from it. -/
structure ProstT5 where
  model : ProstT5.ProstT5Model
  ctx : ProstT5.llama_context

namespace ProstT5

/-- Source lines 250-259 of `predict`: the unknown-residue token, from the
piece of `X` and then from `<unk>`. -/
def unk_token (vocab : llama_vocab) : llama_token :=
  let unk_aa := token_from_aa vocab 'X'
  if unk_aa = LLAMA_TOKEN_NULL then token_from_piece vocab "<unk>" true else unk_aa

/-- Source lines 250-277 of `predict`: the token sequence `embd_inp` built for
the input `aa`, given the resolved unknown-residue token `unk_aa`. The source
pushes the start token before it resolves `unk_aa`; the vector is local to the
call, so it is built here in one piece once `unk_aa` is known. -/
def build_tokens (vocab : llama_vocab) (unk_aa : llama_token) (aa : String) :
    List llama_token :=
  let embd_inp : List llama_token := []
  let start_token := token_from_piece vocab "<AA2fold>" true
  let add_start_end := start_token ≠ LLAMA_TOKEN_NULL
  let embd_inp := if add_start_end then embd_inp ++ [start_token] else embd_inp
  let embd_inp := aa.data.foldl
    (fun v c =>
      let token := token_from_aa vocab c
      if token = LLAMA_TOKEN_NULL then v ++ [unk_aa] else v ++ [token])
    embd_inp
  if add_start_end then
    let end_token := token_from_piece vocab "</s>" true
    let end_token := if end_token = LLAMA_TOKEN_NULL then unk_aa else end_token
    embd_inp ++ [end_token]
  else embd_inp

/-- Source lines 278-284 of `predict`: the `pred_len` handed to `encode`. -/
def pred_len_of (n_vocab : Int) (n_cls_out : Nat) (aa_length embd_inp_size : Nat) : Nat :=
  let is_modernprost := n_cls_out = 20 ∧ n_vocab = 28
  let pred_len := aa_length
  if ¬ is_modernprost ∧ embd_inp_size > 0 then embd_inp_size - 1 else pred_len

/-- Source lines 232-287: `ProstT5::predict(aa)`. The result is the returned
string together with the object afterwards (its context has run `encode` when
`encode` was called). -/
def predict (self : ProstT5) (aa : String) : String × ProstT5 :=
  let result := ""
  let vocab := self.model.model.vocab
  let unk_aa := unk_token vocab
  if unk_aa = LLAMA_TOKEN_NULL then (result, self)
  else
    let embd_inp := build_tokens vocab unk_aa aa
    let n_vocab := vocab.n_tokens
    let n_cls_out := self.model.model.n_cls_out
    let pred_len := pred_len_of n_vocab n_cls_out aa.length embd_inp.length
    let r := encode self.ctx embd_inp pred_len aa.length result
    (r.result, { self with ctx := r.ctx })

/-! ## Predicates used to state the properties -/

/-- The backend outcome on a batch is a failure: `llama_encode` returns a
negative value or `llama_get_embeddings` afterwards is null. -/
def backend_failed (ctx : llama_context) (batch : List llama_token) : Bool :=
  decide ((ctx.run batch).1 < 0) || (ctx.run batch).2.isNone

/-- One of the 20 standard amino-acid letters, upper or lower case. -/
def is_standard_aa (c : Char) : Bool :=
  "ACDEFGHIKLMNPQRSTVWYacdefghiklmnpqrstvwy".data.contains c

/-! ## Views used in the proofs about the argmax scan -/

/-- The inner-loop body seen at one position: `c` is the pair
`(arg_max_idx[j], arg_max[j])`, `s` the score read for class `i`. -/
def cell_step (s : F32) (i : Nat) (c : Int × F32) : Int × F32 :=
  if F32.gt s c.2 then (toInt32 i, s) else c

/-- The pair `(arg_max_idx[j], arg_max[j])` after the classes `0 .. k-1` have
been scanned, `s i` being the score of class `i` at that position. -/
def cell_after (s : Nat → F32) (k : Nat) : Int × F32 :=
  (List.range k).foldl (fun c i => cell_step (s i) i c) ((0 : Int), F32.lowest)

/-- The two vectors of length `pl` whose entries at `j` are the components of `c j`. -/
def cells_view (pl : Nat) (c : Nat → Int × F32) : List Int × List F32 :=
  ((List.range pl).map (fun j => (c j).1), (List.range pl).map (fun j => (c j).2))



/-! ## Names used to state the properties of the scan -/

/-- The class count `encode` uses on the context `ctx`. -/
def ctx_n_classes (ctx : llama_context) : Nat :=
  n_classes_of ctx.model.vocab.n_tokens ctx.model.n_cls_out

/-- The score of class `i` at position `j` as `encode` reads it from the
buffer `emb` on the context `ctx`, for `pred_len` positions. -/
def class_score (ctx : llama_context) (emb : Nat → F32) (pred_len i j : Nat) : F32 :=
  emb (score_idx (token_major_of ctx.model.vocab.n_tokens) (ctx_n_classes ctx) pred_len i j)

/-- A T5-style vocabulary of 150 tokens: start marker, end marker, and residue
pieces with the word-boundary marker. -/
def t5_vocab : llama_vocab :=
  ⟨150, fun s _ _ =>
    if s = "<AA2fold>" then [149] else if s = "</s>" then [1] else if s = "<unk>" then [2]
    else if s = "▁A" then [3] else if s = "▁C" then [4] else if s = "▁X" then [5] else []⟩

/-- A vocabulary of 30 tokens with plain residue pieces and no start marker. -/
def plain_vocab : llama_vocab :=
  ⟨30, fun s _ _ =>
    if s = "A" then [3] else if s = "C" then [4] else if s = "X" then [5] else []⟩

/-- A vocabulary in which no piece is a single token. -/
def empty_vocab : llama_vocab :=
  ⟨30, fun _ _ _ => []⟩

/-- A score buffer of finite scores: entry `k` has rank `k % 7`. -/
def demo_scores : Nat → F32 :=
  fun k => F32.fin ((k % 7 : Nat) : Int)

/-- A runtime whose `llama_encode` succeeds and leaves `demo_scores`. -/
def run_ok : List llama_token → Int × Option (Nat → F32) :=
  fun _ => (0, some demo_scores)

/-- A runtime whose `llama_encode` reports failure. -/
def run_failing : List llama_token → Int × Option (Nat → F32) :=
  fun _ => (-1, none)

/-- The T5-style model, reporting no class count. -/
def t5_model : llama_model := ⟨t5_vocab, 0, by decide⟩

/-- A model on the plain vocabulary reporting 20 classes. -/
def plain_model : llama_model := ⟨plain_vocab, 20, by decide⟩

/-- A session on the T5-style model with a working runtime. -/
def t5_session : ProstT5 := ⟨⟨t5_model⟩, ⟨t5_model, run_ok, none, []⟩⟩

/-- A session on the plain model with a working runtime. -/
def plain_session : ProstT5 := ⟨⟨plain_model⟩, ⟨plain_model, run_ok, none, []⟩⟩

/-- A session on the T5-style model whose runtime fails. -/
def failing_session : ProstT5 := ⟨⟨t5_model⟩, ⟨t5_model, run_failing, none, []⟩⟩

/-- A session on the vocabulary without any single-token piece. -/
def empty_session : ProstT5 :=
  ⟨⟨⟨empty_vocab, 20, by decide⟩⟩, ⟨⟨empty_vocab, 20, by decide⟩, run_ok, none, []⟩⟩

/-! ## Names used to state the properties of the token sequence -/

/-- The C library function `tolower` in the "C" locale, on a `char`. -/
def tolower (c : Char) : Char :=
  if 65 ≤ c.toNat ∧ c.toNat ≤ 90 then Char.ofNat (c.toNat + 32) else c

/-- The string with `toupper` applied to every character. -/
def str_toupper (s : String) : String :=
  ⟨s.data.map toupper⟩

/-- The string with `tolower` applied to every character. -/
def str_tolower (s : String) : String :=
  ⟨s.data.map tolower⟩

/-- Source lines 264-269 of `predict`: the token appended for the residue
character `c`, given the resolved unknown-residue token `unk_aa`. -/
def residue_token (vocab : llama_vocab) (unk_aa : llama_token) (c : Char) : llama_token :=
  let token := token_from_aa vocab c
  if token = LLAMA_TOKEN_NULL then unk_aa else token

/-- The token of a residue character as the specification words it: the token
of the one-character piece of the upper-cased character when that piece is
exactly one token, else the token of the piece with the word-boundary marker
in front when that is exactly one token, else the unknown-residue token. -/
def expected_residue_token (vocab : llama_vocab) (unk_aa : llama_token) (c : Char) :
    llama_token :=
  match vocab.tokens (String.singleton (toupper c)) false false with
  | [t] => t
  | _ =>
    match vocab.tokens ("▁".push (toupper c)) false false with
    | [t] => t
    | _ => unk_aa

/-! ## Device selection (source lines 106-187 and 289-308) -/

/-- The constant `std::string::npos`, the largest `size_t`. -/
def npos : Nat := 2 ^ 64 - 1

/-- The index of the first occurrence of `ch` in a list of characters. -/
def first_index (ch : Char) : List Char → Option Nat
  | [] => none
  | c :: cs => if c = ch then some 0 else (first_index ch cs).map (fun k => k + 1)

/-- The call `s.find(ch, pos)` of `std::string`: the index of the first
occurrence of `ch` at or after `pos`, or `npos` when there is none. -/
def str_find (s : String) (ch : Char) (pos : Nat) : Nat :=
  match first_index ch (s.data.drop pos) with
  | some k => pos + k
  | none => npos

/-- The call `s.substr(pos, count)` of `std::string` for `pos <= s.size()`:
the characters from `pos` on, at most `count` of them. -/
def str_substr (s : String) (pos count : Nat) : String :=
  ⟨(s.data.drop pos).take count⟩

/-- Source lines 110-116 of `string_split`: the `while` loop and the final
`emplace_back`, run for at most `fuel` tests of the loop condition; `none`
when the fuel runs out before the loop ends. -/
def string_split_loop (input : String) (separator : Char) :
    Nat → Nat → Nat → List String → Option (List String)
  | 0, _, _, _ => none
  | fuel + 1, begin_pos, separator_pos, parts =>
    if separator_pos ≠ npos then
      let part := str_substr input begin_pos (separator_pos - begin_pos)
      let parts := parts ++ [part]
      let begin_pos := separator_pos + 1
      let separator_pos := str_find input separator begin_pos
      string_split_loop input separator fuel begin_pos separator_pos parts
    else
      some (parts ++ [str_substr input begin_pos (separator_pos - begin_pos)])

/-- Source lines 106-118: `string_split(input, separator)`, with as much fuel
as the loop can need (one test per separator and the last one). -/
def string_split (input : String) (separator : Char) : Option (List String) :=
  string_split_loop input separator (input.length + 1) 0 (str_find input separator 0) []

/-- The enum `ggml_backend_dev_type` of ggml-backend.h. -/
inductive ggml_backend_dev_type where
  | CPU : ggml_backend_dev_type
  | GPU : ggml_backend_dev_type
  | ACCEL : ggml_backend_dev_type
deriving DecidableEq, Repr

/-- A backend device as this file queries it: `ggml_backend_dev_name`,
`ggml_backend_dev_description`, `ggml_backend_dev_type` and the fields
`memory_free`, `memory_total` of `ggml_backend_dev_get_props`. -/
structure ggml_backend_device where
  name : String
  description : String
  type : ggml_backend_dev_type
  memory_free : Nat
  memory_total : Nat
deriving DecidableEq, Repr

/-- A device handle `ggml_backend_dev_t`: `none` is the null pointer. -/
abbrev ggml_backend_dev_t := Option ggml_backend_device

/-- The device registry of the runtime: the devices in the order of
`ggml_backend_dev_get(0 .. ggml_backend_dev_count() - 1)`, and the lookup
`ggml_backend_dev_by_name`. -/
structure ggml_backend_registry where
  devices : List ggml_backend_device
  by_name : String → ggml_backend_dev_t

/-- The C string `s.c_str()` as a callee reads it: up to the first NUL. -/
def c_str (s : String) : String :=
  ⟨s.data.takeWhile (fun c => c ≠ Char.ofNat 0)⟩

/-- Source lines 130-136 of `parse_device_list`: the loop body for one entry. -/
def parse_device_step (reg : ggml_backend_registry) (devices : List ggml_backend_dev_t)
    (device : String) : List ggml_backend_dev_t :=
  match reg.by_name (c_str device) with
  | none => devices
  | some dev =>
    if dev.type ≠ ggml_backend_dev_type.GPU then devices else devices ++ [some dev]

/-- Source lines 120-140: `parse_device_list(value)`; `none` only when
`string_split` runs out of fuel. -/
def parse_device_list (reg : ggml_backend_registry) (value : String) :
    Option (List ggml_backend_dev_t) :=
  let devices : List ggml_backend_dev_t := []
  match string_split value ',' with
  | none => none
  | some dev_names =>
    if dev_names.isEmpty then some (devices ++ [none])
    else if dev_names.length = 1 ∧ dev_names.getD 0 "" = "none" then some (devices ++ [none])
    else
      let devices := dev_names.foldl (parse_device_step reg) devices
      some (devices ++ [none])

/-- The fields of `llama_model_params` this file sets. -/
structure llama_model_params where
  devices : Option (List ggml_backend_dev_t)
  n_gpu_layers : Int
  use_mmap : Bool

/-- Source lines 176-179 of the constructor: the loop body for one handle. -/
def count_gpus_step (gpus : Int) (dev : ggml_backend_dev_t) : Int :=
  match dev with
  | none => gpus
  | some d => gpus + (if d.type = ggml_backend_dev_type.GPU then 1 else 0)

/-- Source lines 174-180 of the constructor: the count `gpus`, an `int` that
grows by at most one per entry of the device list. -/
def count_gpus (devices : List ggml_backend_dev_t) : Int :=
  devices.foldl count_gpus_step 0

/-- Source lines 168-186 of `ProstT5Model::ProstT5Model`: the parameters the
model is loaded with, from the defaults of `llama_model_default_params`. -/
def model_load_params (reg : ggml_backend_registry) (defaults : llama_model_params)
    (device : String) : Option llama_model_params :=
  let mparams := defaults
  match parse_device_list reg device with
  | none => none
  | some devices =>
    let mparams := if ¬ devices.isEmpty then { mparams with devices := some devices } else mparams
    let gpus := count_gpus devices
    let mparams :=
      if gpus > 0 then { mparams with n_gpu_layers := 24 }
      else { mparams with n_gpu_layers := 0 }
    some { mparams with use_mmap := true }

/-- Source lines 167-187: the constructor `ProstT5Model(model_file, device)`;
`load` is `llama_model_load_from_file`, whose result is kept in `model`. -/
def ProstT5Model_create {α : Type} (load : String → llama_model_params → α)
    (reg : ggml_backend_registry) (defaults : llama_model_params)
    (model_file device : String) : Option α :=
  match model_load_params reg defaults device with
  | none => none
  | some mparams => some (load model_file mparams)

/-- The test `s.find(needle) != std::string::npos`: `needle` occurs in `s`. -/
def has_substring (needle : List Char) : List Char → Bool
  | [] => needle.isEmpty
  | c :: cs => needle.isPrefixOf (c :: cs) || has_substring needle cs

/-- Source lines 291-306 of `getDevices`: the loop body for one device. -/
def get_devices_step (devices : List String) (dev : ggml_backend_device) : List String :=
  let name := dev.name
  let description := dev.description
  if name = "Metal" then
    let bad_desc :=
      decide (description.length = 0) || has_substring "Paravirtual".data description.data
    let no_mem := decide (dev.memory_free = 0) && decide (dev.memory_total = 0)
    if bad_desc || no_mem then devices else devices ++ [name]
  else devices ++ [name]

/-- Source lines 289-308: `ProstT5::getDevices()`. -/
def getDevices (reg : ggml_backend_registry) : List String :=
  reg.devices.foldl get_devices_step []

/-- A registry with one CPU device, two GPU devices and two Metal reports. -/
def demo_registry : ggml_backend_registry :=
  ⟨[⟨"CPU", "host", ggml_backend_dev_type.CPU, 8, 16⟩,
    ⟨"CUDA0", "gpu zero", ggml_backend_dev_type.GPU, 4, 8⟩,
    ⟨"Metal", "Apple Paravirtual device", ggml_backend_dev_type.GPU, 4, 8⟩,
    ⟨"CUDA1", "gpu one", ggml_backend_dev_type.GPU, 0, 0⟩,
    ⟨"Metal", "Apple M2", ggml_backend_dev_type.GPU, 4, 8⟩],
   fun s =>
    if s = "CPU" then some ⟨"CPU", "host", ggml_backend_dev_type.CPU, 8, 16⟩
    else if s = "CUDA0" then some ⟨"CUDA0", "gpu zero", ggml_backend_dev_type.GPU, 4, 8⟩
    else if s = "CUDA1" then some ⟨"CUDA1", "gpu one", ggml_backend_dev_type.GPU, 0, 0⟩
    else none⟩

/-- Default model parameters: no device list, no offload, no memory mapping. -/
def demo_defaults : llama_model_params := ⟨none, 0, false⟩

/-! ## Names used to state the properties of the device selection -/

/-- The parts of a list of characters between the occurrences of `sep`. -/
def split_chars (sep : Char) : List Char → List (List Char)
  | [] => [[]]
  | c :: cs =>
    if c = sep then [] :: split_chars sep cs
    else
      match split_chars sep cs with
      | [] => [[c]]
      | p :: ps => (c :: p) :: ps

/-- The parts joined again, with `sep` between two consecutive parts. -/
def join_chars (sep : Char) : List (List Char) → List Char
  | [] => []
  | [p] => p
  | p :: q :: ps => p ++ sep :: join_chars sep (q :: ps)

/-- The device an entry of the selector stands for when the entry resolves to
a GPU-class device. -/
def accepted_device (reg : ggml_backend_registry) (entry : String) :
    Option ggml_backend_device :=
  match reg.by_name (c_str entry) with
  | none => none
  | some dev => if dev.type = ggml_backend_dev_type.GPU then some dev else none

/-- A device hidden from the listing, as the specification words it: named
`Metal`, with a description that is empty or contains `Paravirtual`, or with
`memory_free` and `memory_total` both 0. -/
def device_hidden (dev : ggml_backend_device) : Prop :=
  dev.name = "Metal" ∧
    ((dev.description.length = 0 ∨ "Paravirtual".data <:+: dev.description.data) ∨
      (dev.memory_free = 0 ∧ dev.memory_total = 0))

instance device_hidden_decidable (dev : ggml_backend_device) : Decidable (device_hidden dev) := by
  unfold device_hidden
  exact inferInstance


/-! ## The decode step with checked accesses (source lines 79-102)

The same loops as in `encode`, with every subscript tested against the size of
what it indexes: `buf_len` floats in the buffer of `llama_get_embeddings`,
`pred_len` entries in `arg_max_idx` and `arg_max`. An access outside its
object gives `none`. The buffer indices read are recorded in order. -/

/-- The state of the checked scan: the vectors `arg_max_idx` and `arg_max`,
and the buffer indices read so far. -/
structure scan_state where
  arg_max_idx : List Int
  arg_max : List F32
  reads : List Nat

/-- Source lines 93-97 with checked accesses: `embeddings[idx]` needs
`idx < buf_len`, `arg_max[j]` and `arg_max_idx[j]` need `j` below the size of
the vector. -/
def scan_step_checked (embeddings : Nat → F32) (buf_len : Nat) (token_major : Bool)
    (n_classes pred_len i : Nat) (st : Option scan_state) (j : Nat) : Option scan_state :=
  match st with
  | none => none
  | some s =>
    let idx := score_idx token_major n_classes pred_len i j
    if idx < buf_len then
      match s.arg_max[j]? with
      | none => none
      | some arg_max_j =>
        if F32.gt (embeddings idx) arg_max_j then
          if j < s.arg_max_idx.length then
            some ⟨s.arg_max_idx.set j (toInt32 i), s.arg_max.set j (embeddings idx),
              s.reads ++ [idx]⟩
          else none
        else some ⟨s.arg_max_idx, s.arg_max, s.reads ++ [idx]⟩
    else none

/-- Source lines 89-99 with checked accesses. -/
def argmax_scan_checked (embeddings : Nat → F32) (buf_len : Nat) (token_major : Bool)
    (n_classes pred_len : Nat) : Option scan_state :=
  (List.range n_classes).foldl
    (fun st i => (List.range pred_len).foldl
      (scan_step_checked embeddings buf_len token_major n_classes pred_len i) st)
    (some ⟨List.replicate pred_len (0 : Int), List.replicate pred_len F32.lowest, []⟩)

/-- Source lines 100-102 with checked accesses: `arg_max_idx[i]` needs `i`
below the size of the vector. -/
def append_output_checked (arg_max_idx : List Int) (output_len : Nat) (result : String) :
    Option String :=
  (List.range output_len).foldl
    (fun r i =>
      match r with
      | none => none
      | some r =>
        match arg_max_idx[i]? with
        | none => none
        | some v => some (r.push (number_to_char (toUInt32 v))))
    (some result)

/-- Source lines 56-104 with checked accesses, for a buffer of `buf_len`
floats: what `encode` leaves behind and the buffer indices it read, or `none`
when an access falls outside its object. -/
def encode_checked (ctx : llama_context) (buf_len : Nat) (enc_input : List llama_token)
    (pred_len output_len : Nat) (result : String) : Option (encode_out × List Nat) :=
  let model := ctx.model
  let vocab := model.vocab
  let e := llama_encode ctx enc_input
  if e.1 < 0 then some (⟨1, result, e.2⟩, [])
  else
    match llama_get_embeddings e.2 with
    | none => some (⟨1, result, e.2⟩, [])
    | some embeddings =>
      if pred_len = 0 ∨ output_len = 0 then some (⟨0, result, e.2⟩, [])
      else
        let output_len := if output_len > pred_len then pred_len else output_len
        let n_vocab := vocab.n_tokens
        let n_cls_out := model.n_cls_out
        let n_classes := n_classes_of n_vocab n_cls_out
        let token_major := token_major_of n_vocab
        match argmax_scan_checked embeddings buf_len token_major n_classes pred_len with
        | none => none
        | some s =>
          match append_output_checked s.arg_max_idx output_len result with
          | none => none
          | some r => some (⟨0, r, e.2⟩, s.reads)

/-- The buffer indices of the scan in loop order: classes outside, positions
inside. -/
def scan_reads (token_major : Bool) (n_classes pred_len : Nat) : List Nat :=
  (List.range n_classes).flatMap
    (fun i => (List.range pred_len).map (fun j => score_idx token_major n_classes pred_len i j))


/-! ## Lemmas about `encode` -/

set_option maxRecDepth 100000

theorem append_output_data (idx : List Int) (n : Nat) (r : String) :
    (append_output idx n r).data =
      r.data ++ (List.range n).map (fun i => number_to_char (toUInt32 (idx.getD i 0))) := by
  unfold append_output
  induction n with
  | zero => simp
  | succ n ih =>
    rw [List.range_succ, List.foldl_append, List.map_append, ← List.append_assoc, ← ih]
    simp only [List.foldl_cons, List.foldl_nil, String.data_push, List.map_cons, List.map_nil]

theorem append_output_length (idx : List Int) (n : Nat) (r : String) :
    (append_output idx n r).length = r.length + n := by
  show (append_output idx n r).data.length = r.data.length + n
  rw [append_output_data]
  simp

theorem encode_of_failed (ctx : llama_context) (inp : List llama_token) (pl ol : Nat)
    (result : String) (h : backend_failed ctx inp = true) :
    encode ctx inp pl ol result = ⟨1, result, (llama_encode ctx inp).2⟩ := by
  unfold encode
  simp only [backend_failed, Bool.or_eq_true, decide_eq_true_eq] at h
  by_cases h1 : (ctx.run inp).1 < 0
  · simp [llama_encode, h1]
  · have h2 : (ctx.run inp).2 = none := by
      rcases h with h | h
      · exact absurd h h1
      · simpa using h
    simp [llama_encode, llama_get_embeddings, h1, h2]

theorem encode_of_ok (ctx : llama_context) (inp : List llama_token) (pl ol : Nat)
    (result : String) (emb : Nat → F32) (h1 : ¬ (ctx.run inp).1 < 0)
    (h2 : (ctx.run inp).2 = some emb) :
    encode ctx inp pl ol result =
      if pl = 0 ∨ ol = 0 then ⟨0, result, (llama_encode ctx inp).2⟩
      else ⟨0, append_output
          (argmax_scan emb (token_major_of ctx.model.vocab.n_tokens)
            (n_classes_of ctx.model.vocab.n_tokens ctx.model.n_cls_out) pl).1
          (if ol > pl then pl else ol) result, (llama_encode ctx inp).2⟩ := by
  unfold encode
  simp [llama_encode, llama_get_embeddings, h1, h2]

theorem backend_ok_iff (ctx : llama_context) (inp : List llama_token) :
    backend_failed ctx inp = false ↔
      ¬ (ctx.run inp).1 < 0 ∧ ∃ emb, (ctx.run inp).2 = some emb := by
  unfold backend_failed
  cases h : (ctx.run inp).2 <;> simp

theorem encode_length (ctx : llama_context) (inp : List llama_token) (pl ol : Nat)
    (result : String) :
    (encode ctx inp pl ol result).result.length =
      result.length + (if backend_failed ctx inp = true then 0 else min ol pl) := by
  by_cases h : backend_failed ctx inp = true
  · rw [encode_of_failed ctx inp pl ol result h]; simp [h]
  · have h' : backend_failed ctx inp = false := by simpa using h
    obtain ⟨h1, emb, h2⟩ := (backend_ok_iff ctx inp).1 h'
    rw [encode_of_ok ctx inp pl ol result emb h1 h2]
    simp only [h', Bool.false_eq_true, if_false]
    split
    · rename_i hz
      rcases hz with hz | hz <;> simp [hz]
    · simp only [append_output_length]
      congr 1
      split <;> omega

/-! ## Lemmas about `predict` -/

theorem token_from_piece_null (vocab : llama_vocab) (piece : String) (ps : Bool)
    (h : (vocab.tokens piece false ps).length ≠ 1) :
    token_from_piece vocab piece ps = LLAMA_TOKEN_NULL := by
  unfold token_from_piece llama_tokenize
  by_cases h8 : (vocab.tokens piece false ps).length ≤ 8
  · have h1 : ¬ ((vocab.tokens piece false ps).length : Int) = 1 := by omega
    have h2 : ¬ ((vocab.tokens piece false ps).length : Int) < 0 := by omega
    simp [h8, h1, h2]
  · have h1 : ¬ (-((vocab.tokens piece false ps).length : Int)) = 1 := by omega
    have h2 : (-((vocab.tokens piece false ps).length : Int)) < 0 := by omega
    have h3 : ¬ ((vocab.tokens piece false ps).length : Int) = 1 := by omega
    simp [h8, h1, h2, h3]

theorem unk_token_null (vocab : llama_vocab)
    (hX : (vocab.tokens "X" false false).length ≠ 1)
    (hSpX : (vocab.tokens "▁X" false false).length ≠ 1)
    (hUnk : (vocab.tokens "<unk>" false true).length ≠ 1) :
    unk_token vocab = LLAMA_TOKEN_NULL := by
  have e1 : String.singleton (toupper 'X') = "X" := by decide
  have e2 : "▁".push (toupper 'X') = "▁X" := by decide
  have a1 := token_from_piece_null vocab "X" false hX
  have a2 := token_from_piece_null vocab "▁X" false hSpX
  have a3 := token_from_piece_null vocab "<unk>" true hUnk
  unfold unk_token token_from_aa
  simp only [e1, e2, a1, a2, a3]
  simp

theorem fold_tokens_length (vocab : llama_vocab) (unk : llama_token) (l : List Char)
    (init : List llama_token) :
    (l.foldl
      (fun v c =>
        let token := token_from_aa vocab c
        if token = LLAMA_TOKEN_NULL then v ++ [unk] else v ++ [token])
      init).length = init.length + l.length := by
  induction l generalizing init with
  | nil => simp
  | cons c cs ih =>
    simp only [List.foldl_cons, List.length_cons]
    rw [ih]
    split <;> simp <;> omega

theorem build_tokens_length (vocab : llama_vocab) (unk : llama_token) (aa : String) :
    (build_tokens vocab unk aa).length =
      aa.length + (if token_from_piece vocab "<AA2fold>" true ≠ LLAMA_TOKEN_NULL then 2 else 0) := by
  unfold build_tokens
  by_cases h : token_from_piece vocab "<AA2fold>" true = LLAMA_TOKEN_NULL
  · simp only [h, ne_eq, not_true_eq_false, if_false]
    rw [fold_tokens_length]
    simp
  · simp only [h, ne_eq, not_false_eq_true, if_true]
    rw [List.length_append, fold_tokens_length]
    simp
    omega

theorem predict_of_unk_null (self : ProstT5) (aa : String)
    (h : unk_token self.model.model.vocab = LLAMA_TOKEN_NULL) :
    predict self aa = ("", self) := by
  unfold predict
  simp [h]

theorem predict_of_unk (self : ProstT5) (aa : String)
    (h : unk_token self.model.model.vocab ≠ LLAMA_TOKEN_NULL) :
    predict self aa =
      ((encode self.ctx (build_tokens self.model.model.vocab (unk_token self.model.model.vocab) aa)
          (pred_len_of self.model.model.vocab.n_tokens self.model.model.n_cls_out aa.length
            (build_tokens self.model.model.vocab (unk_token self.model.model.vocab) aa).length)
          aa.length "").result,
        { self with ctx := (encode self.ctx
          (build_tokens self.model.model.vocab (unk_token self.model.model.vocab) aa)
          (pred_len_of self.model.model.vocab.n_tokens self.model.model.n_cls_out aa.length
            (build_tokens self.model.model.vocab (unk_token self.model.model.vocab) aa).length)
          aa.length "").ctx }) := by
  unfold predict
  simp [h]

theorem predict_length (self : ProstT5) (aa : String) :
    (predict self aa).1.length =
      if unk_token self.model.model.vocab = LLAMA_TOKEN_NULL ∨
          backend_failed self.ctx
            (build_tokens self.model.model.vocab (unk_token self.model.model.vocab) aa) = true
      then 0
      else min aa.length
        (pred_len_of self.model.model.vocab.n_tokens self.model.model.n_cls_out aa.length
          (build_tokens self.model.model.vocab (unk_token self.model.model.vocab) aa).length) := by
  by_cases h : unk_token self.model.model.vocab = LLAMA_TOKEN_NULL
  · rw [predict_of_unk_null self aa h]
    simp [h]
  · rw [predict_of_unk self aa h]
    simp only [encode_length, h, false_or]
    split <;> simp

theorem pred_len_of_start (n_vocab : Int) (n_cls_out N : Nat) :
    N ≤ pred_len_of n_vocab n_cls_out N (N + 2) := by
  simp only [pred_len_of]
  split <;> omega

theorem pred_len_of_modern (N size : Nat) : pred_len_of 28 20 N size = N := by
  unfold pred_len_of
  simp

theorem pred_len_of_plain (n_vocab : Int) (n_cls_out N : Nat)
    (h : ¬ (n_cls_out = 20 ∧ n_vocab = 28)) :
    pred_len_of n_vocab n_cls_out N N = N - 1 := by
  unfold pred_len_of
  by_cases hN : N > 0
  · simp [h, hN]
  · have : N = 0 := by omega
    subst this
    simp

/-! ## The argmax scan, position by position -/

theorem range_map_getElem? {α : Type} (pl : Nat) (f : Nat → α) (j : Nat) :
    ((List.range pl).map f)[j]? = if j < pl then some (f j) else none := by
  by_cases h : j < pl
  · simp [h, List.getElem?_range h]
  · simp [h]
    omega

theorem range_map_set {α : Type} (pl : Nat) (f : Nat → α) (j : Nat) (a : α) :
    ((List.range pl).map f).set j a = (List.range pl).map (Function.update f j a) := by
  apply List.ext_getElem?
  intro n
  rw [List.getElem?_set, range_map_getElem?, range_map_getElem?]
  by_cases hjn : j = n
  · subst hjn
    by_cases hj : j < pl <;> simp [hj]
  · have hnj : n ≠ j := fun h => hjn h.symm
    simp [hjn, Function.update_noteq hnj]

theorem range_map_congr {α : Type} (pl : Nat) (f g : Nat → α) (h : ∀ j, j < pl → f j = g j) :
    (List.range pl).map f = (List.range pl).map g := by
  apply List.map_congr_left
  intro j hj
  exact h j (List.mem_range.1 hj)

theorem scan_step_view (emb : Nat → F32) (tm : Bool) (n pl i : Nat) (c : Nat → Int × F32)
    (j : Nat) (hj : j < pl) :
    scan_step emb tm n pl i (cells_view pl c) j =
      cells_view pl (Function.update c j (cell_step (emb (score_idx tm n pl i j)) i (c j))) := by
  unfold scan_step cells_view cell_step
  simp only [List.getD_eq_getElem?_getD, range_map_getElem?, hj, if_true, Option.getD_some]
  by_cases hgt : (emb (score_idx tm n pl i j)).gt (c j).2 = true
  · simp only [hgt, if_true, range_map_set]
    congr 1
    · apply range_map_congr
      intro j' _
      by_cases e : j' = j
      · subst e; simp
      · simp [Function.update_noteq e]
    · apply range_map_congr
      intro j' _
      by_cases e : j' = j
      · subst e; simp
      · simp [Function.update_noteq e]
  · have hgt' : (emb (score_idx tm n pl i j)).gt (c j).2 = false := by simpa using hgt
    simp only [hgt', Bool.false_eq_true, if_false, Function.update_eq_self]

theorem inner_loop_view (emb : Nat → F32) (tm : Bool) (n pl i : Nat) (c : Nat → Int × F32)
    (m : Nat) (hm : m ≤ pl) :
    (List.range m).foldl (scan_step emb tm n pl i) (cells_view pl c) =
      cells_view pl (fun j =>
        if j < m then cell_step (emb (score_idx tm n pl i j)) i (c j) else c j) := by
  induction m with
  | zero => simp
  | succ m ih =>
    rw [List.range_succ, List.foldl_append, ih (by omega)]
    simp only [List.foldl_cons, List.foldl_nil]
    rw [scan_step_view _ _ _ _ _ _ _ (by omega)]
    unfold cells_view
    congr 1
    · apply range_map_congr
      intro j _
      by_cases e : j = m
      · subst e; simp
      · have : j < m + 1 ↔ j < m := by omega
        simp [Function.update_noteq e, this]
    · apply range_map_congr
      intro j _
      by_cases e : j = m
      · subst e; simp
      · have : j < m + 1 ↔ j < m := by omega
        simp [Function.update_noteq e, this]

theorem inner_loop_full (emb : Nat → F32) (tm : Bool) (n pl i : Nat) (c : Nat → Int × F32) :
    (List.range pl).foldl (scan_step emb tm n pl i) (cells_view pl c) =
      cells_view pl (fun j => cell_step (emb (score_idx tm n pl i j)) i (c j)) := by
  rw [inner_loop_view emb tm n pl i c pl (Nat.le_refl _)]
  unfold cells_view
  congr 1
  · apply range_map_congr
    intro j hj
    simp [hj]
  · apply range_map_congr
    intro j hj
    simp [hj]

theorem outer_loop_view (emb : Nat → F32) (tm : Bool) (n pl : Nat) (k : Nat) :
    (List.range k).foldl
      (fun st i => (List.range pl).foldl (scan_step emb tm n pl i) st)
      (List.replicate pl (0 : Int), List.replicate pl F32.lowest) =
      cells_view pl (fun j => cell_after (fun i => emb (score_idx tm n pl i j)) k) := by
  induction k with
  | zero =>
    simp only [List.range_zero, List.foldl_nil, cells_view, cell_after]
    congr 1
    · apply List.ext_getElem?
      intro j
      rw [range_map_getElem?, List.getElem?_replicate]
    · apply List.ext_getElem?
      intro j
      rw [range_map_getElem?, List.getElem?_replicate]
  | succ k ih =>
    rw [List.range_succ, List.foldl_append, ih]
    simp only [List.foldl_cons, List.foldl_nil]
    rw [inner_loop_full]
    unfold cells_view
    congr 1
    · apply range_map_congr
      intro j _
      simp [cell_after, List.range_succ, List.foldl_append]
    · apply range_map_congr
      intro j _
      simp [cell_after, List.range_succ, List.foldl_append]

theorem argmax_scan_view (emb : Nat → F32) (tm : Bool) (n pl : Nat) :
    argmax_scan emb tm n pl =
      cells_view pl (fun j => cell_after (fun i => emb (score_idx tm n pl i j)) n) := by
  unfold argmax_scan
  exact outer_loop_view emb tm n pl n

theorem argmax_scan_idx (emb : Nat → F32) (tm : Bool) (n pl : Nat) (j : Nat) (hj : j < pl) :
    (argmax_scan emb tm n pl).1.getD j 0 =
      (cell_after (fun i => emb (score_idx tm n pl i j)) n).1 := by
  rw [argmax_scan_view]
  simp [cells_view, range_map_getElem?, hj]

theorem isFinite_iff (x : F32) :
    x.isFinite = true ↔ ∃ r, x = F32.fin r ∧ -FLT_MAX_RANK ≤ r ∧ r ≤ FLT_MAX_RANK := by
  cases x <;> simp [F32.isFinite]

theorem gt_fin (a b : Int) : F32.gt (F32.fin a) (F32.fin b) = decide (b < a) := rfl

theorem toUInt32_toInt32 (n : Nat) (h : n < 2 ^ 32) : toUInt32 (toInt32 n) = n := by
  unfold toUInt32 toInt32
  have h1 : n % 2 ^ 32 = n := Nat.mod_eq_of_lt h
  rw [h1]
  split <;> omega

theorem n_classes_of_pos (n_vocab : Int) (n_cls_out : Nat) : 1 ≤ n_classes_of n_vocab n_cls_out := by
  simp only [n_classes_of]
  split <;> split <;> omega

theorem n_classes_of_lt (n_vocab : Int) (n_cls_out : Nat) (h : n_cls_out < 2 ^ 32) :
    n_classes_of n_vocab n_cls_out < 2 ^ 32 := by
  simp only [n_classes_of]
  split <;> split <;> omega

theorem cell_after_succ (s : Nat → F32) (k : Nat) :
    cell_after s (k + 1) = cell_step (s k) k (cell_after s k) := by
  simp [cell_after, List.range_succ, List.foldl_append]

theorem cell_after_congr (s t : Nat → F32) (k : Nat) (h : ∀ i, i < k → s i = t i) :
    cell_after s k = cell_after t k := by
  induction k with
  | zero => rfl
  | succ k ih =>
    rw [cell_after_succ, cell_after_succ, ih (fun i hi => h i (by omega)), h k (by omega)]

theorem cell_after_spec (s : Nat → F32) (k : Nat)
    (hfin : ∀ i, i < k + 1 → (s i).isFinite = true) :
    ∃ istar, istar < k + 1 ∧ cell_after s (k + 1) = (toInt32 istar, s istar) ∧
      (∀ i, i < k + 1 → F32.gt (s i) (s istar) = false) ∧
      (∀ i, i < istar → F32.gt (s istar) (s i) = true) := by
  induction k with
  | zero =>
    obtain ⟨r, hr, hlo, _⟩ := (isFinite_iff (s 0)).1 (hfin 0 (by omega))
    refine ⟨0, by omega, ?_, ?_, ?_⟩
    · rw [cell_after_succ]
      simp only [cell_after, List.range_zero, List.foldl_nil, cell_step, hr, F32.lowest, gt_fin]
      by_cases hc : -FLT_MAX_RANK < r
      · simp only [hc, decide_True, if_true]
      · have : r = -FLT_MAX_RANK := by omega
        subst this
        have h0 : toInt32 0 = 0 := by decide
        simp [h0]
    · intro i hi
      have : i = 0 := by omega
      subst this
      rw [hr, gt_fin]
      simp
    · intro i hi
      omega
  | succ k ih =>
    obtain ⟨istar, hlt, hcell, hmax, hfirst⟩ := ih (fun i hi => hfin i (by omega))
    obtain ⟨ra, hra, _, _⟩ := (isFinite_iff (s istar)).1 (hfin istar (by omega))
    obtain ⟨rb, hrb, _, _⟩ := (isFinite_iff (s (k + 1))).1 (hfin (k + 1) (by omega))
    rw [cell_after_succ, hcell]
    by_cases hc : ra < rb
    · refine ⟨k + 1, by omega, ?_, ?_, ?_⟩
      · simp [cell_step, hra, hrb, gt_fin, hc]
      · intro i hi
        obtain ⟨ri, hri, _, _⟩ := (isFinite_iff (s i)).1 (hfin i hi)
        by_cases e : i = k + 1
        · subst e
          rw [hrb, gt_fin]
          simp
        · have h1 := hmax i (by omega)
          rw [hri, hra, gt_fin] at h1
          rw [hri, hrb, gt_fin]
          simp only [decide_eq_false_iff_not, not_lt] at h1 ⊢
          omega
      · intro i hi
        obtain ⟨ri, hri, _, _⟩ := (isFinite_iff (s i)).1 (hfin i (by omega))
        have h1 := hmax i hi
        rw [hri, hra, gt_fin] at h1
        rw [hri, hrb, gt_fin]
        simp only [decide_eq_false_iff_not, not_lt, decide_eq_true_eq] at h1 ⊢
        omega
    · refine ⟨istar, by omega, ?_, ?_, hfirst⟩
      · simp [cell_step, hra, hrb, gt_fin, hc]
      · intro i hi
        by_cases e : i = k + 1
        · subst e
          rw [hrb, hra, gt_fin]
          simp only [decide_eq_false_iff_not]
          exact hc
        · exact hmax i (by omega)

theorem gt_ne_of_finite (a b : F32) (h : F32.gt a b = true) : b ≠ a := by
  intro e
  subst e
  cases b <;> simp [F32.gt] at h

/-! ## Output length of `predict` -/

/-- C1. For every sequence of length N made only of the 20 standard amino-acid
letters (upper or lower case): when the vocabulary resolves the start marker
`<AA2fold>` and an unknown token, and the backend encode succeeds with a
non-null score buffer, `predict` returns a string of length exactly N, whatever
the model's class count and vocabulary size are. -/
theorem C1_predict_length_standard (self : ProstT5) (aa : String)
    (_hstd : ∀ c ∈ aa.data, is_standard_aa c = true)
    (hstart : token_from_piece self.model.model.vocab "<AA2fold>" true ≠ LLAMA_TOKEN_NULL)
    (hunk : unk_token self.model.model.vocab ≠ LLAMA_TOKEN_NULL)
    (hok : backend_failed self.ctx
      (build_tokens self.model.model.vocab (unk_token self.model.model.vocab) aa) = false) :
    (predict self aa).1.length = aa.length := by
  rw [predict_length, build_tokens_length]
  simp only [hunk, hok, hstart, ne_eq, not_false_eq_true, if_true, false_or,
    Bool.false_eq_true, if_false]
  exact Nat.min_eq_left (pred_len_of_start _ _ _)

/-- Witness of C1: the T5-style session on the input `ACac`. -/
theorem C1_predict_length_standard_witness : (predict t5_session "ACac").1.length = 4 :=
  C1_predict_length_standard t5_session "ACac" (by decide) (by decide) (by decide) (by decide)

/-- C2 as stated fails: on a vocabulary without start marker and a model that
is not the modern variant, the unknown token resolves and the backend succeeds
with a score buffer, yet the input `AC` of length 2 gives a result of length 1. -/
theorem C2_counterexample :
    unk_token plain_session.model.model.vocab ≠ LLAMA_TOKEN_NULL ∧
    backend_failed plain_session.ctx
      (build_tokens plain_session.model.model.vocab
        (unk_token plain_session.model.model.vocab) "AC") = false ∧
    "AC".length = 2 ∧
    (predict plain_session "AC").1 = "H" ∧
    (predict plain_session "AC").1.length ≠ "AC".length := by
  decide

/-- C2, amended. When the unknown token resolves and the backend encode
succeeds with a non-null score buffer, `predict` returns a string of length
exactly N if the vocabulary resolves the start marker or the model is the
modern variant (20 classes, 28 tokens), and of length N - 1 if there is no
start marker and the model is not the modern variant. A result shorter than N
occurs only when the unknown token does not resolve, the backend fails, or in
that last configuration. -/
theorem C2_predict_length_exact (self : ProstT5) (aa : String) :
    (unk_token self.model.model.vocab ≠ LLAMA_TOKEN_NULL →
      backend_failed self.ctx
        (build_tokens self.model.model.vocab (unk_token self.model.model.vocab) aa) = false →
      ((token_from_piece self.model.model.vocab "<AA2fold>" true ≠ LLAMA_TOKEN_NULL ∨
          (self.model.model.n_cls_out = 20 ∧ self.model.model.vocab.n_tokens = 28) →
        (predict self aa).1.length = aa.length) ∧
       (token_from_piece self.model.model.vocab "<AA2fold>" true = LLAMA_TOKEN_NULL ∧
          ¬ (self.model.model.n_cls_out = 20 ∧ self.model.model.vocab.n_tokens = 28) →
        (predict self aa).1.length = aa.length - 1))) ∧
    ((predict self aa).1.length < aa.length →
      unk_token self.model.model.vocab = LLAMA_TOKEN_NULL ∨
      backend_failed self.ctx
        (build_tokens self.model.model.vocab (unk_token self.model.model.vocab) aa) = true ∨
      (token_from_piece self.model.model.vocab "<AA2fold>" true = LLAMA_TOKEN_NULL ∧
        ¬ (self.model.model.n_cls_out = 20 ∧ self.model.model.vocab.n_tokens = 28))) := by
  have key : unk_token self.model.model.vocab ≠ LLAMA_TOKEN_NULL →
      backend_failed self.ctx
        (build_tokens self.model.model.vocab (unk_token self.model.model.vocab) aa) = false →
      (token_from_piece self.model.model.vocab "<AA2fold>" true ≠ LLAMA_TOKEN_NULL ∨
          (self.model.model.n_cls_out = 20 ∧ self.model.model.vocab.n_tokens = 28)) →
      (predict self aa).1.length = aa.length := by
    intro hunk hok hcase
    rw [predict_length, build_tokens_length]
    simp only [hunk, hok, false_or, Bool.false_eq_true, if_false]
    apply Nat.min_eq_left
    rcases hcase with hs | ⟨h20, h28⟩
    · simp only [hs, ne_eq, not_false_eq_true, if_true]
      exact pred_len_of_start _ _ _
    · rw [h20, h28, pred_len_of_modern]
  refine ⟨fun hunk hok => ⟨key hunk hok, ?_⟩, ?_⟩
  · rintro ⟨hs, hm⟩
    rw [predict_length, build_tokens_length]
    simp only [hunk, hok, hs, false_or, Bool.false_eq_true, if_false, ne_eq, not_true_eq_false,
      Nat.add_zero]
    rw [pred_len_of_plain _ _ _ hm]
    omega
  · intro hlt
    by_cases hunk : unk_token self.model.model.vocab = LLAMA_TOKEN_NULL
    · exact Or.inl hunk
    · by_cases hok : backend_failed self.ctx
        (build_tokens self.model.model.vocab (unk_token self.model.model.vocab) aa) = true
      · exact Or.inr (Or.inl hok)
      · right; right
        have hok' : backend_failed self.ctx
            (build_tokens self.model.model.vocab (unk_token self.model.model.vocab) aa) = false := by
          simpa using hok
        by_contra hcon
        have hcase : token_from_piece self.model.model.vocab "<AA2fold>" true ≠ LLAMA_TOKEN_NULL ∨
            (self.model.model.n_cls_out = 20 ∧ self.model.model.vocab.n_tokens = 28) := by
          by_cases hs : token_from_piece self.model.model.vocab "<AA2fold>" true = LLAMA_TOKEN_NULL
          · right
            by_contra hm
            exact hcon ⟨hs, hm⟩
          · exact Or.inl hs
        have := key hunk hok' hcase
        omega

/-- Both configurations of the amended C2 at concrete inputs: length 4 = N on
the T5-style session, length 1 = N - 1 on the session without start marker. -/
theorem C2_predict_length_exact_witness :
    (predict t5_session "ACac").1.length = "ACac".length ∧
    (predict plain_session "AC").1.length = "AC".length - 1 :=
  ⟨((C2_predict_length_exact t5_session "ACac").1 (by decide) (by decide)).1
      (Or.inl (by decide)),
    ((C2_predict_length_exact plain_session "AC").1 (by decide) (by decide)).2
      ⟨by decide, by decide⟩⟩

/-- C3. For every input of length N, every vocabulary, model metadata and
backend outcome, the string returned by `predict` has length at most N. When
the unknown token resolves and the backend succeeds the number of decoded
characters is N capped at `pred_len`; when the unknown token does not resolve
or the backend fails the result is empty. At the level of `encode`, the number
of appended characters is `output_len` capped at `pred_len` on success and 0 on
failure. -/
theorem C3_predict_length_le (self : ProstT5) (aa : String) :
    (predict self aa).1.length ≤ aa.length ∧
    (unk_token self.model.model.vocab ≠ LLAMA_TOKEN_NULL →
      backend_failed self.ctx
        (build_tokens self.model.model.vocab (unk_token self.model.model.vocab) aa) = false →
      (predict self aa).1.length =
        min aa.length
          (pred_len_of self.model.model.vocab.n_tokens self.model.model.n_cls_out aa.length
            (build_tokens self.model.model.vocab
              (unk_token self.model.model.vocab) aa).length)) ∧
    (unk_token self.model.model.vocab = LLAMA_TOKEN_NULL ∨
      backend_failed self.ctx
        (build_tokens self.model.model.vocab (unk_token self.model.model.vocab) aa) = true →
      (predict self aa).1 = "") ∧
    (∀ (ctx : llama_context) (enc_input : List llama_token) (pred_len output_len : Nat)
        (result : String),
      (encode ctx enc_input pred_len output_len result).result.length =
        result.length +
          (if backend_failed ctx enc_input = true then 0 else min output_len pred_len)) := by
  refine ⟨?_, ?_, ?_, ?_⟩
  · rw [predict_length]
    split
    · omega
    · exact Nat.min_le_left _ _
  · intro hunk hok
    rw [predict_length]
    simp [hunk, hok]
  · intro h
    by_cases hunk : unk_token self.model.model.vocab = LLAMA_TOKEN_NULL
    · rw [predict_of_unk_null self aa hunk]
    · have hf : backend_failed self.ctx
          (build_tokens self.model.model.vocab (unk_token self.model.model.vocab) aa) = true := by
        rcases h with h | h
        · exact absurd h hunk
        · exact h
      rw [predict_of_unk self aa hunk, encode_of_failed _ _ _ _ _ hf]
  · intro ctx enc_input pred_len output_len result
    exact encode_length ctx enc_input pred_len output_len result

/-! ## Argmax decoding and memory layout -/

theorem encode_ok_data (ctx : llama_context) (inp : List llama_token) (pl ol : Nat)
    (result : String) (emb : Nat → F32) (h1 : ¬ (ctx.run inp).1 < 0)
    (h2 : (ctx.run inp).2 = some emb) :
    (encode ctx inp pl ol result).result.data =
      result.data ++ (List.range (min ol pl)).map (fun j =>
        number_to_char (toUInt32
          (cell_after (fun i => class_score ctx emb pl i j) (ctx_n_classes ctx)).1)) := by
  rw [encode_of_ok ctx inp pl ol result emb h1 h2]
  by_cases hz : pl = 0 ∨ ol = 0
  · have hm : min ol pl = 0 := by rcases hz with hz | hz <;> simp [hz]
    simp [hz, hm]
  · simp only [hz, if_false]
    rw [append_output_data]
    have hm : (if ol > pl then pl else ol) = min ol pl := by split <;> omega
    rw [hm]
    congr 1
    apply List.map_congr_left
    intro j hj
    have hj' : j < pl := by
      have := List.mem_range.1 hj
      omega
    rw [argmax_scan_idx _ _ _ _ _ hj']
    rfl

/-- C4. On a successful backend call whose score buffer holds finite scores at
the entries of the `pred_len x n_classes` matrix, for every output position
`j < min(output_len, pred_len)` (so `pred_len >= 1`) the character `encode`
appends at position `j` is `number_to_char istar`, where `istar` is a class
index below the effective class count (which is at least 1) such that no class
has a greater score at position `j` and no smaller class index has the same
score: the smallest index whose score is the maximum at position `j`. -/
theorem C4_argmax_first_max (ctx : llama_context) (enc_input : List llama_token)
    (pred_len output_len : Nat) (result : String) (emb : Nat → F32)
    (hrc : ¬ (ctx.run enc_input).1 < 0) (hemb : (ctx.run enc_input).2 = some emb)
    (hfin : ∀ i j, i < ctx_n_classes ctx → j < pred_len →
      (class_score ctx emb pred_len i j).isFinite = true)
    (j : Nat) (hj : j < min output_len pred_len) :
    1 ≤ ctx_n_classes ctx ∧
    ∃ istar, istar < ctx_n_classes ctx ∧
      (∀ i, i < ctx_n_classes ctx →
        F32.gt (class_score ctx emb pred_len i j) (class_score ctx emb pred_len istar j) = false) ∧
      (∀ i, i < istar →
        class_score ctx emb pred_len i j ≠ class_score ctx emb pred_len istar j) ∧
      (encode ctx enc_input pred_len output_len result).result.data[result.length + j]? =
        some (number_to_char istar) := by
  have hpos : 1 ≤ ctx_n_classes ctx := n_classes_of_pos _ _
  have hlt : ctx_n_classes ctx < 2 ^ 32 := n_classes_of_lt _ _ ctx.model.n_cls_out_lt
  refine ⟨hpos, ?_⟩
  obtain ⟨k, hk⟩ : ∃ k, ctx_n_classes ctx = k + 1 := ⟨ctx_n_classes ctx - 1, by omega⟩
  have hjp : j < pred_len := by omega
  obtain ⟨istar, h1, h2, h3, h4⟩ := cell_after_spec (fun i => class_score ctx emb pred_len i j) k
    (fun i hi => hfin i j (by omega) hjp)
  refine ⟨istar, by omega, fun i hi => h3 i (by omega),
    fun i hi => gt_ne_of_finite _ _ (h4 i hi), ?_⟩
  rw [encode_ok_data ctx enc_input pred_len output_len result emb hrc hemb]
  have hlen : result.length = result.data.length := rfl
  rw [hlen, List.getElem?_append_right (by omega)]
  simp only [Nat.add_sub_cancel_left, range_map_getElem?, hj, if_true]
  rw [hk, h2, toUInt32_toInt32 istar (by omega)]

/-- Witness of C4: the T5-style context (20 classes, class-major) on the
finite buffer `demo_scores`, 3 positions of which 2 are output, position 1. -/
theorem C4_argmax_first_max_witness :
    1 ≤ ctx_n_classes t5_session.ctx ∧
    ∃ istar, istar < ctx_n_classes t5_session.ctx ∧
      (∀ i, i < ctx_n_classes t5_session.ctx →
        F32.gt (class_score t5_session.ctx demo_scores 3 i 1)
          (class_score t5_session.ctx demo_scores 3 istar 1) = false) ∧
      (∀ i, i < istar →
        class_score t5_session.ctx demo_scores 3 i 1 ≠
          class_score t5_session.ctx demo_scores 3 istar 1) ∧
      (encode t5_session.ctx [149, 3, 4, 1] 3 2 "").result.data["".length + 1]? =
        some (number_to_char istar) :=
  C4_argmax_first_max t5_session.ctx [149, 3, 4, 1] 3 2 "" demo_scores (by decide) rfl
    (by
      intro i j _ _
      simp only [class_score, demo_scores, F32.isFinite, FLT_MAX_RANK]
      simp only [Bool.and_eq_true, decide_eq_true_eq]
      omega)
    1 (by decide)

theorem score_idx_token_major (n pl i j : Nat) (hi : i < n) (hj : j < pl)
    (hfit : pl * n < 2 ^ 64) : score_idx true n pl i j = j * n + i := by
  simp only [score_idx, if_true]
  apply Nat.mod_eq_of_lt
  have : (j + 1) * n ≤ pl * n := Nat.mul_le_mul_right n (by omega)
  have h2 : (j + 1) * n = j * n + n := by ring
  omega

theorem score_idx_class_major (n pl i j : Nat) (hi : i < n) (hj : j < pl)
    (hfit : pl * n < 2 ^ 64) : score_idx false n pl i j = i * pl + j := by
  simp only [score_idx, Bool.false_eq_true, if_false]
  apply Nat.mod_eq_of_lt
  have : (i + 1) * pl ≤ n * pl := Nat.mul_le_mul_right pl (by omega)
  have h2 : (i + 1) * pl = i * pl + pl := by ring
  have h3 : n * pl = pl * n := Nat.mul_comm _ _
  omega

theorem n_classes_of_150 : n_classes_of 150 1 = n_classes_of 150 20 := by decide

theorem encode_status (ctx : llama_context) (inp : List llama_token) (pl ol : Nat)
    (result : String) :
    (encode ctx inp pl ol result).status = if backend_failed ctx inp = true then 1 else 0 := by
  by_cases h : backend_failed ctx inp = true
  · rw [encode_of_failed ctx inp pl ol result h]; simp [h]
  · have h' : backend_failed ctx inp = false := by simpa using h
    obtain ⟨h1, emb, h2⟩ := (backend_ok_iff ctx inp).1 h'
    rw [encode_of_ok ctx inp pl ol result emb h1 h2]
    simp only [h', Bool.false_eq_true, if_false]
    split <;> rfl

theorem encode_batches (ctx : llama_context) (inp : List llama_token) (pl ol : Nat)
    (result : String) :
    (encode ctx inp pl ol result).ctx.batches = ctx.batches ++ [inp] := by
  by_cases h : backend_failed ctx inp = true
  · rw [encode_of_failed ctx inp pl ol result h]; rfl
  · have h' : backend_failed ctx inp = false := by simpa using h
    obtain ⟨h1, emb, h2⟩ := (backend_ok_iff ctx inp).1 h'
    rw [encode_of_ok ctx inp pl ol result emb h1 h2]
    split <;> rfl

theorem backend_failed_iff (ctx : llama_context) (inp : List llama_token) :
    backend_failed ctx inp = true ↔ ((ctx.run inp).1 < 0 ∨ (ctx.run inp).2 = none) := by
  unfold backend_failed
  cases h : (ctx.run inp).2 <;> simp

theorem encode_zero_result (ctx : llama_context) (inp : List llama_token) (pl ol : Nat)
    (result : String) (h : pl = 0 ∨ ol = 0) :
    (encode ctx inp pl ol result).result = result := by
  by_cases hf : backend_failed ctx inp = true
  · rw [encode_of_failed ctx inp pl ol result hf]
  · have h' : backend_failed ctx inp = false := by simpa using hf
    obtain ⟨h1, emb, h2⟩ := (backend_ok_iff ctx inp).1 h'
    rw [encode_of_ok ctx inp pl ol result emb h1 h2]
    simp [h]

/-- C6. The class count used by `encode` is 20 when the model reports none
(`n_cls_out = 0`), 20 when the model reports 1 class and the vocabulary has 150
tokens, and the reported `n_cls_out` otherwise. Hence two contexts that share
the runtime and a 150-token vocabulary, one reporting 1 class and the other 20,
decode every batch to the same status and the same output string. -/
theorem C6_class_count_override (ctx1 ctx20 : llama_context)
    (hrun : ctx1.run = ctx20.run) (hvocab : ctx1.model.vocab = ctx20.model.vocab)
    (h150 : ctx1.model.vocab.n_tokens = 150)
    (h1 : ctx1.model.n_cls_out = 1) (h20 : ctx20.model.n_cls_out = 20) :
    (∀ (n_vocab : Int) (n_cls_out : Nat),
      n_classes_of n_vocab n_cls_out =
        if n_cls_out = 0 then 20
        else if n_cls_out = 1 ∧ n_vocab = 150 then 20
        else n_cls_out) ∧
    (∀ (enc_input : List llama_token) (pred_len output_len : Nat) (result : String),
      (encode ctx1 enc_input pred_len output_len result).result =
        (encode ctx20 enc_input pred_len output_len result).result ∧
      (encode ctx1 enc_input pred_len output_len result).status =
        (encode ctx20 enc_input pred_len output_len result).status) := by
  constructor
  · intro n_vocab n_cls_out
    unfold n_classes_of
    by_cases h0 : n_cls_out = 0
    · subst h0; simp
    · have hpos : n_cls_out > 0 := Nat.pos_of_ne_zero h0
      simp only [hpos, if_true, h0, if_false]
  · intro inp pl ol result
    have hfail : backend_failed ctx1 inp = backend_failed ctx20 inp := by
      unfold backend_failed; rw [hrun]
    refine ⟨?_, by rw [encode_status, encode_status, hfail]⟩
    by_cases hf : backend_failed ctx20 inp = true
    · rw [encode_of_failed ctx20 inp pl ol result hf,
        encode_of_failed ctx1 inp pl ol result (hfail.trans hf)]
    · have h' : backend_failed ctx20 inp = false := by simpa using hf
      obtain ⟨ha, emb, hb⟩ := (backend_ok_iff ctx20 inp).1 h'
      rw [encode_of_ok ctx20 inp pl ol result emb ha hb,
        encode_of_ok ctx1 inp pl ol result emb (by rw [hrun]; exact ha) (by rw [hrun]; exact hb)]
      rw [← hvocab, h150, h1, h20, n_classes_of_150]
      split <;> rfl

/-- Witness of C6: the 150-token vocabulary with 1 and with 20 reported classes. -/
theorem C6_class_count_override_witness :
    n_classes_of 150 1 = 20 ∧
    (encode ⟨⟨t5_vocab, 1, by decide⟩, run_ok, none, []⟩ [149, 3, 4, 1] 3 2 "").result =
      (encode ⟨⟨t5_vocab, 20, by decide⟩, run_ok, none, []⟩ [149, 3, 4, 1] 3 2 "").result :=
  ⟨by decide,
    ((C6_class_count_override ⟨⟨t5_vocab, 1, by decide⟩, run_ok, none, []⟩
      ⟨⟨t5_vocab, 20, by decide⟩, run_ok, none, []⟩ rfl rfl rfl rfl rfl).2
        [149, 3, 4, 1] 3 2 "").1⟩

/-- C7. `number_to_char` maps the indices 0, 1, ..., 19 to the characters of
`ACDEFGHIKLMNPQRSTVWY` in that order and every other index to `X`: every index
of at least 20, and so every negative `int`, which arrives as an unsigned value
of at least `2 ^ 31`. -/
theorem C7_number_to_char :
    (∀ i : Nat, i < 20 → "ACDEFGHIKLMNPQRSTVWY".data[i]? = some (number_to_char i)) ∧
    (number_to_char 0 = 'A' ∧ number_to_char 1 = 'C' ∧ number_to_char 19 = 'Y') ∧
    (∀ n : Nat, 20 ≤ n → number_to_char n = 'X') ∧
    (∀ z : Int, -2 ^ 31 ≤ z → z < 0 →
      2 ^ 31 ≤ toUInt32 z ∧ number_to_char (toUInt32 z) = 'X') := by
  have hge : ∀ n : Nat, 20 ≤ n → number_to_char n = 'X' := by
    intro n h
    unfold number_to_char
    split <;> first | omega | rfl
  refine ⟨?_, ⟨rfl, rfl, rfl⟩, hge, ?_⟩
  · intro i hi
    interval_cases i <;> rfl
  · intro z hz1 hz2
    have hb : 2 ^ 31 ≤ toUInt32 z := by
      unfold toUInt32
      omega
    exact ⟨hb, hge _ (by omega)⟩

/-- C8. If none of the pieces `X`, `▁X` and `<unk>` is exactly one token, then
for every input (whatever its characters, with or without a start marker in
the vocabulary) `predict` returns the empty string and leaves the object as it
was: no batch is submitted, whereas every call of `encode` submits one. -/
theorem C8_no_unknown_token (self : ProstT5) (aa : String)
    (hX : (self.model.model.vocab.tokens "X" false false).length ≠ 1)
    (hSpX : (self.model.model.vocab.tokens "▁X" false false).length ≠ 1)
    (hUnk : (self.model.model.vocab.tokens "<unk>" false true).length ≠ 1) :
    (predict self aa).1 = "" ∧
    (predict self aa).2 = self ∧
    (predict self aa).2.ctx.batches = self.ctx.batches ∧
    (∀ (enc_input : List llama_token) (pred_len output_len : Nat) (result : String),
      (encode self.ctx enc_input pred_len output_len result).ctx.batches =
        self.ctx.batches ++ [enc_input]) := by
  have hnull := unk_token_null self.model.model.vocab hX hSpX hUnk
  rw [predict_of_unk_null self aa hnull]
  exact ⟨rfl, rfl, rfl, fun inp pl ol r => encode_batches self.ctx inp pl ol r⟩

/-- Witness of C8: the vocabulary without single-token pieces, input `AC`. -/
theorem C8_no_unknown_token_witness :
    (predict empty_session "AC").1 = "" ∧
    (predict empty_session "AC").2.ctx.batches = [] :=
  ⟨(C8_no_unknown_token empty_session "AC" (by decide) (by decide) (by decide)).1,
    (C8_no_unknown_token empty_session "AC" (by decide) (by decide) (by decide)).2.2.1⟩

/-- C9 as stated fails: with `output_len = 0` (the empty input on the T5-style
vocabulary: tokens start and end, `pred_len = 1`) and a backend that reports
failure, `encode` returns status 1, not 0. -/
theorem C9_counterexample :
    build_tokens t5_vocab (unk_token t5_vocab) "" = [149, 1] ∧
    pred_len_of 150 0 "".length 2 = 1 ∧
    "".length = 0 ∧
    (encode failing_session.ctx [149, 1] 1 0 "").status = 1 ∧
    (encode failing_session.ctx [] 0 0 "").status = 1 := by
  decide

/-- C9, amended. Whenever `pred_len = 0` or `output_len = 0`, `encode` appends
nothing to the result for every backend outcome; its status is 0 exactly when
the backend encode succeeded with a non-null score buffer, and 1 otherwise.
For the empty input `predict` returns the empty string, for every vocabulary
and every backend outcome. -/
theorem C9_zero_length (ctx : llama_context) (enc_input : List llama_token)
    (pred_len output_len : Nat) (result : String) (h : pred_len = 0 ∨ output_len = 0) :
    (encode ctx enc_input pred_len output_len result).result = result ∧
    ((encode ctx enc_input pred_len output_len result).status = 0 ↔
      backend_failed ctx enc_input = false) ∧
    (backend_failed ctx enc_input = true →
      (encode ctx enc_input pred_len output_len result).status = 1) ∧
    (∀ self : ProstT5, (predict self "").1 = "") := by
  refine ⟨encode_zero_result ctx enc_input pred_len output_len result h, ?_, ?_, ?_⟩
  · rw [encode_status]
    cases backend_failed ctx enc_input <;> simp
  · intro hf
    rw [encode_status, hf]
    rfl
  · intro self
    by_cases hunk : unk_token self.model.model.vocab = LLAMA_TOKEN_NULL
    · rw [predict_of_unk_null self "" hunk]
    · rw [predict_of_unk self "" hunk]
      exact encode_zero_result _ _ _ _ _ (Or.inr rfl)

/-- Witness of the amended C9: the empty input on a working backend. -/
theorem C9_zero_length_witness :
    (encode t5_session.ctx [149, 1] 1 0 "").result = "" ∧
    (encode t5_session.ctx [149, 1] 1 0 "").status = 0 :=
  ⟨(C9_zero_length t5_session.ctx [149, 1] 1 0 "" (Or.inr rfl)).1,
    (C9_zero_length t5_session.ctx [149, 1] 1 0 "" (Or.inr rfl)).2.1.2 (by decide)⟩

/-- C10. `encode` returns a nonzero status if and only if the backend encode
call reports failure (`llama_encode < 0`) or the backend yields no score buffer
(null embeddings); in those cases the status is 1 and the result string is
left unchanged; in every other case the status is 0, and the result grows by
`output_len` capped at `pred_len` characters. -/
theorem C10_encode_status (ctx : llama_context) (enc_input : List llama_token)
    (pred_len output_len : Nat) (result : String) :
    ((encode ctx enc_input pred_len output_len result).status ≠ 0 ↔
      ((ctx.run enc_input).1 < 0 ∨ (ctx.run enc_input).2 = none)) ∧
    (((ctx.run enc_input).1 < 0 ∨ (ctx.run enc_input).2 = none) →
      (encode ctx enc_input pred_len output_len result).status = 1 ∧
      (encode ctx enc_input pred_len output_len result).result = result) ∧
    (¬ ((ctx.run enc_input).1 < 0 ∨ (ctx.run enc_input).2 = none) →
      (encode ctx enc_input pred_len output_len result).status = 0 ∧
      (encode ctx enc_input pred_len output_len result).result.length =
        result.length + min output_len pred_len) := by
  rw [← backend_failed_iff]
  refine ⟨?_, ?_, ?_⟩
  · rw [encode_status]
    cases backend_failed ctx enc_input <;> simp
  · intro hf
    rw [encode_of_failed ctx enc_input pred_len output_len result hf]
    exact ⟨rfl, rfl⟩
  · intro hf
    rw [encode_status, encode_length]
    simp [hf]


/-! ## The token sequence built by `predict` -/

theorem toupper_toupper (c : Char) : toupper (toupper c) = toupper c := by
  by_cases h : 97 ≤ c.toNat ∧ c.toNat ≤ 122
  · have hc : c = Char.ofNat c.toNat := (Char.ofNat_toNat c).symm
    generalize c.toNat = n at h hc
    subst hc
    obtain ⟨h1, h2⟩ := h
    interval_cases n <;> decide
  · have e : toupper c = c := by simp only [toupper, h, if_false]
    rw [e, e]

theorem toupper_tolower (c : Char) : toupper (tolower c) = toupper c := by
  by_cases h : 65 ≤ c.toNat ∧ c.toNat ≤ 90
  · have hc : c = Char.ofNat c.toNat := (Char.ofNat_toNat c).symm
    generalize c.toNat = n at h hc
    subst hc
    obtain ⟨h1, h2⟩ := h
    interval_cases n <;> decide
  · have e : tolower c = c := by simp only [tolower, h, if_false]
    rw [e]

theorem token_from_aa_congr (vocab : llama_vocab) (c d : Char) (h : toupper c = toupper d) :
    token_from_aa vocab c = token_from_aa vocab d := by
  unfold token_from_aa
  rw [h]

theorem fold_tokens_eq_map (vocab : llama_vocab) (unk : llama_token) (l : List Char)
    (init : List llama_token) :
    l.foldl
      (fun v c =>
        let token := token_from_aa vocab c
        if token = LLAMA_TOKEN_NULL then v ++ [unk] else v ++ [token])
      init = init ++ l.map (residue_token vocab unk) := by
  induction l generalizing init with
  | nil => simp
  | cons c cs ih =>
    simp only [List.foldl_cons, List.map_cons]
    rw [ih]
    unfold residue_token
    by_cases h : token_from_aa vocab c = LLAMA_TOKEN_NULL <;> simp [h]

theorem build_tokens_eq (vocab : llama_vocab) (unk : llama_token) (aa : String) :
    build_tokens vocab unk aa =
      if token_from_piece vocab "<AA2fold>" true ≠ LLAMA_TOKEN_NULL then
        [token_from_piece vocab "<AA2fold>" true] ++ aa.data.map (residue_token vocab unk) ++
          [if token_from_piece vocab "</s>" true = LLAMA_TOKEN_NULL then unk
            else token_from_piece vocab "</s>" true]
      else aa.data.map (residue_token vocab unk) := by
  unfold build_tokens
  simp only [fold_tokens_eq_map]
  split <;> simp

theorem residue_token_congr (vocab : llama_vocab) (unk : llama_token) (c d : Char)
    (h : toupper c = toupper d) : residue_token vocab unk c = residue_token vocab unk d := by
  unfold residue_token
  rw [token_from_aa_congr vocab c d h]

theorem build_tokens_map (vocab : llama_vocab) (unk : llama_token) (aa : String)
    (f : Char → Char) (hf : ∀ c, toupper (f c) = toupper c) :
    build_tokens vocab unk ⟨aa.data.map f⟩ = build_tokens vocab unk aa := by
  rw [build_tokens_eq, build_tokens_eq]
  have hm : (aa.data.map f).map (residue_token vocab unk) =
      aa.data.map (residue_token vocab unk) := by
    rw [List.map_map]
    apply List.map_congr_left
    intro c _
    exact residue_token_congr vocab unk (f c) c (hf c)
  simp only [hm]

theorem predict_map (self : ProstT5) (aa : String) (f : Char → Char)
    (hf : ∀ c, toupper (f c) = toupper c) :
    predict self ⟨aa.data.map f⟩ = predict self aa := by
  have hlen : (String.mk (aa.data.map f)).length = aa.length := by
    show (aa.data.map f).length = aa.data.length
    simp
  unfold predict
  simp only [build_tokens_map _ _ _ f hf, hlen]


theorem token_from_piece_single (vocab : llama_vocab) (piece : String) (ps : Bool)
    (t : llama_token) (h : vocab.tokens piece false ps = [t]) :
    token_from_piece vocab piece ps = t := by
  unfold token_from_piece llama_tokenize
  simp [h]

theorem token_from_piece_match (vocab : llama_vocab) (piece : String) (ps : Bool) :
    token_from_piece vocab piece ps =
      match vocab.tokens piece false ps with
      | [t] => t
      | _ => LLAMA_TOKEN_NULL := by
  cases h : vocab.tokens piece false ps with
  | nil => exact token_from_piece_null vocab piece ps (by rw [h]; decide)
  | cons t ts =>
    cases ts with
    | nil => exact token_from_piece_single vocab piece ps t h
    | cons u us =>
      exact token_from_piece_null vocab piece ps (by rw [h]; simp)

theorem residue_token_expected (vocab : llama_vocab) (unk : llama_token) (c : Char)
    (hwf : ∀ s a p, LLAMA_TOKEN_NULL ∉ vocab.tokens s a p) :
    residue_token vocab unk c = expected_residue_token vocab unk c := by
  unfold residue_token expected_residue_token token_from_aa
  simp only [token_from_piece_match]
  have h1 := hwf (String.singleton (toupper c)) false false
  have h2 := hwf ("▁".push (toupper c)) false false
  cases e1 : vocab.tokens (String.singleton (toupper c)) false false with
  | nil =>
    cases e2 : vocab.tokens ("▁".push (toupper c)) false false with
    | nil => simp
    | cons t ts =>
      cases ts with
      | nil =>
        have : t ≠ LLAMA_TOKEN_NULL := by
          intro e; apply h2; rw [e2, e]; simp
        simp [this]
      | cons u us => simp
  | cons t ts =>
    cases ts with
    | nil =>
      have : t ≠ LLAMA_TOKEN_NULL := by
        intro e; apply h1; rw [e1, e]; simp
      simp [this]
    | cons u us =>
      cases e2 : vocab.tokens ("▁".push (toupper c)) false false with
      | nil => simp
      | cons t2 ts2 =>
        cases ts2 with
        | nil =>
          have : t2 ≠ LLAMA_TOKEN_NULL := by
            intro e; apply h2; rw [e2, e]; simp
          simp [this]
        | cons u2 us2 => simp

theorem residue_token_ne_null (vocab : llama_vocab) (unk : llama_token) (c : Char)
    (hunk : unk ≠ LLAMA_TOKEN_NULL) : residue_token vocab unk c ≠ LLAMA_TOKEN_NULL := by
  unfold residue_token
  by_cases h : token_from_aa vocab c = LLAMA_TOKEN_NULL <;> simp [h, hunk]

theorem build_tokens_residue (vocab : llama_vocab) (unk : llama_token) (aa : String)
    (k : Nat) (c : Char) (hc : aa.data[k]? = some c) :
    (build_tokens vocab unk aa)[
      (if token_from_piece vocab "<AA2fold>" true ≠ LLAMA_TOKEN_NULL then 1 else 0) + k]? =
      some (residue_token vocab unk c) := by
  have hk : k < aa.data.length := by
    by_contra hcon
    rw [List.getElem?_eq_none (by omega)] at hc
    exact Option.noConfusion hc
  rw [build_tokens_eq]
  by_cases hs : token_from_piece vocab "<AA2fold>" true = LLAMA_TOKEN_NULL
  · simp [hs, hc]
  · simp only [hs, ne_eq, not_false_eq_true, if_true]
    rw [List.append_assoc, List.getElem?_append_right (by simp)]
    simp only [List.length_singleton, Nat.add_sub_cancel_left]
    rw [List.getElem?_append_left (by simpa using hk)]
    simp [hc]

/-- C11. Prediction is case-insensitive: for every ASCII input and every
vocabulary, the token sequence built for the input with every letter
upper-cased, and for the input lower-cased, is the one built for the input
itself, and `predict` returns the same on all three. -/
theorem C11_case_insensitive (self : ProstT5) (unk : llama_token) (aa : String)
    (_hascii : ∀ c ∈ aa.data, c.toNat < 128) :
    build_tokens self.model.model.vocab unk (str_toupper aa) =
      build_tokens self.model.model.vocab unk aa ∧
    build_tokens self.model.model.vocab unk (str_tolower aa) =
      build_tokens self.model.model.vocab unk aa ∧
    predict self (str_toupper aa) = predict self aa ∧
    predict self (str_tolower aa) = predict self aa :=
  ⟨build_tokens_map _ unk aa toupper toupper_toupper,
    build_tokens_map _ unk aa tolower toupper_tolower,
    predict_map self aa toupper toupper_toupper,
    predict_map self aa tolower toupper_tolower⟩

/-- Witness of C11: the input `aCxa` on the T5-style session. -/
theorem C11_case_insensitive_witness :
    str_toupper "aCxa" = "ACXA" ∧ str_tolower "aCxa" = "acxa" ∧
    predict t5_session (str_toupper "aCxa") = predict t5_session "aCxa" ∧
    predict t5_session (str_tolower "aCxa") = predict t5_session "aCxa" :=
  ⟨by decide, by decide,
    (C11_case_insensitive t5_session 5 "aCxa" (by decide)).2.2.1,
    (C11_case_insensitive t5_session 5 "aCxa" (by decide)).2.2.2⟩

/-- C12. When the unknown token resolves, the token sequence handed to the
encoder is the start token, one token per residue in input order and the end
token when the vocabulary resolves the start marker `<AA2fold>`, and the
residue tokens alone otherwise. Its length is N + 2 exactly when the start
marker resolves and N otherwise, never N + 1. -/
theorem C12_token_sequence (self : ProstT5) (aa : String)
    (hunk : unk_token self.model.model.vocab ≠ LLAMA_TOKEN_NULL) :
    (predict self aa).2.ctx.batches = self.ctx.batches ++
      [build_tokens self.model.model.vocab (unk_token self.model.model.vocab) aa] ∧
    (token_from_piece self.model.model.vocab "<AA2fold>" true ≠ LLAMA_TOKEN_NULL →
      ∃ end_token,
        build_tokens self.model.model.vocab (unk_token self.model.model.vocab) aa =
          [token_from_piece self.model.model.vocab "<AA2fold>" true] ++
            aa.data.map (residue_token self.model.model.vocab
              (unk_token self.model.model.vocab)) ++ [end_token] ∧
        end_token ≠ LLAMA_TOKEN_NULL ∧
        (build_tokens self.model.model.vocab
          (unk_token self.model.model.vocab) aa).length = aa.length + 2) ∧
    (token_from_piece self.model.model.vocab "<AA2fold>" true = LLAMA_TOKEN_NULL →
      build_tokens self.model.model.vocab (unk_token self.model.model.vocab) aa =
        aa.data.map (residue_token self.model.model.vocab
          (unk_token self.model.model.vocab)) ∧
      (build_tokens self.model.model.vocab
        (unk_token self.model.model.vocab) aa).length = aa.length) ∧
    ((build_tokens self.model.model.vocab (unk_token self.model.model.vocab) aa).length =
        aa.length + 2 ↔
      token_from_piece self.model.model.vocab "<AA2fold>" true ≠ LLAMA_TOKEN_NULL) ∧
    (build_tokens self.model.model.vocab (unk_token self.model.model.vocab) aa).length ≠
      aa.length + 1 := by
  refine ⟨?_, ?_, ?_, ?_, ?_⟩
  · rw [predict_of_unk self aa hunk]
    exact encode_batches _ _ _ _ _
  · intro hs
    refine ⟨if token_from_piece self.model.model.vocab "</s>" true = LLAMA_TOKEN_NULL
        then unk_token self.model.model.vocab
        else token_from_piece self.model.model.vocab "</s>" true, ?_, ?_, ?_⟩
    · rw [build_tokens_eq]
      simp only [hs, ne_eq, not_false_eq_true, if_true]
    · by_cases he : token_from_piece self.model.model.vocab "</s>" true = LLAMA_TOKEN_NULL
      · simp only [he, if_true]; exact hunk
      · simp only [he, if_false]; exact he
    · rw [build_tokens_length]; simp [hs]
  · intro hs
    constructor
    · rw [build_tokens_eq]
      simp [hs]
    · rw [build_tokens_length]; simp [hs]
  · rw [build_tokens_length]
    by_cases hs : token_from_piece self.model.model.vocab "<AA2fold>" true = LLAMA_TOKEN_NULL
    · simp [hs]
    · simp [hs]
  · rw [build_tokens_length]
    split <;> omega

/-- Witness of C12: with the start marker (`ACac`, 6 tokens) and without it
(`AC`, 2 tokens). -/
theorem C12_token_sequence_witness :
    (predict t5_session "ACac").2.ctx.batches = [[149, 3, 4, 3, 4, 1]] ∧
    (predict plain_session "AC").2.ctx.batches = [[3, 4]] :=
  ⟨((C12_token_sequence t5_session "ACac" (by decide)).1).trans (by decide),
    ((C12_token_sequence plain_session "AC" (by decide)).1).trans (by decide)⟩


/-- C15. For a vocabulary whose tokenizer never emits the null token and a
resolved unknown-residue token, the token placed at the position of the
residue character `c` (position `k` of the input, after the start token when
there is one) is the token of the one-character piece of the upper-cased `c`
when that piece is exactly one token, else the token of the piece with the
word-boundary marker in front when that is exactly one token, else the
unknown-residue token; it is never the null token, and the sequence is handed
to the encoder. -/
theorem C15_residue_token (self : ProstT5) (aa : String) (k : Nat) (c : Char)
    (hc : aa.data[k]? = some c)
    (hwf : ∀ s a p, LLAMA_TOKEN_NULL ∉ self.model.model.vocab.tokens s a p)
    (hunk : unk_token self.model.model.vocab ≠ LLAMA_TOKEN_NULL) :
    (build_tokens self.model.model.vocab (unk_token self.model.model.vocab) aa)[
      (if token_from_piece self.model.model.vocab "<AA2fold>" true ≠ LLAMA_TOKEN_NULL
        then 1 else 0) + k]? =
      some (expected_residue_token self.model.model.vocab
        (unk_token self.model.model.vocab) c) ∧
    expected_residue_token self.model.model.vocab (unk_token self.model.model.vocab) c ≠
      LLAMA_TOKEN_NULL ∧
    (predict self aa).2.ctx.batches = self.ctx.batches ++
      [build_tokens self.model.model.vocab (unk_token self.model.model.vocab) aa] := by
  have he := residue_token_expected self.model.model.vocab (unk_token self.model.model.vocab) c hwf
  refine ⟨?_, ?_, ?_⟩
  · rw [← he]
    exact build_tokens_residue _ _ aa k c hc
  · rw [← he]
    exact residue_token_ne_null _ _ c hunk
  · rw [predict_of_unk self aa hunk]
    exact encode_batches _ _ _ _ _

/-- Witness of C15: on the T5-style vocabulary the residue `c` at position 1
of `aczA` gets the token of the piece with the word-boundary marker, and the
unmapped residue `z` at position 2 gets the unknown-residue token. -/
theorem C15_residue_token_witness :
    (build_tokens t5_vocab (unk_token t5_vocab) "aczA")[1 + 1]? = some 4 ∧
    (build_tokens t5_vocab (unk_token t5_vocab) "aczA")[1 + 2]? = some 5 :=
  ⟨((C15_residue_token t5_session "aczA" 1 'c' (by decide)
      (by intro s a p; simp only [t5_session, t5_model, t5_vocab]; split_ifs <;> decide)
      (by decide)).1).trans (by decide),
    ((C15_residue_token t5_session "aczA" 2 'z' (by decide)
      (by intro s a p; simp only [t5_session, t5_model, t5_vocab]; split_ifs <;> decide)
      (by decide)).1).trans (by decide)⟩

/-- C16 as stated fails: on the vocabulary without start marker and a model
that is not the modern variant, no end token is appended for the input `AC`
(2 tokens), yet the `pred_len` passed to the decode step is 1, not N = 2. -/
theorem C16_counterexample :
    token_from_piece plain_session.model.model.vocab "<AA2fold>" true = LLAMA_TOKEN_NULL ∧
    build_tokens plain_session.model.model.vocab
      (unk_token plain_session.model.model.vocab) "AC" = [3, 4] ∧
    "AC".length = 2 ∧
    pred_len_of plain_session.model.model.vocab.n_tokens plain_session.model.model.n_cls_out
      "AC".length
      (build_tokens plain_session.model.model.vocab
        (unk_token plain_session.model.model.vocab) "AC").length = 1 := by
  decide

/-- C16, amended. The `pred_len` that `predict` passes to the decode step is
the token count minus one whenever the model is not the modern variant (20
reported classes and a 28-token vocabulary) and the token sequence is not
empty: N + 1 when the start marker resolves, so that an end token was appended,
and N - 1 when the vocabulary defines no start marker. It is the input length
N when the model is the modern variant or the token sequence is empty. -/
theorem C16_pred_len (self : ProstT5) (aa : String)
    (hunk : unk_token self.model.model.vocab ≠ LLAMA_TOKEN_NULL) :
    (predict self aa).1 =
      (encode self.ctx
        (build_tokens self.model.model.vocab (unk_token self.model.model.vocab) aa)
        (pred_len_of self.model.model.vocab.n_tokens self.model.model.n_cls_out aa.length
          (build_tokens self.model.model.vocab (unk_token self.model.model.vocab) aa).length)
        aa.length "").result ∧
    (¬ (self.model.model.n_cls_out = 20 ∧ self.model.model.vocab.n_tokens = 28) →
      0 < (build_tokens self.model.model.vocab (unk_token self.model.model.vocab) aa).length →
      pred_len_of self.model.model.vocab.n_tokens self.model.model.n_cls_out aa.length
          (build_tokens self.model.model.vocab (unk_token self.model.model.vocab) aa).length =
        (build_tokens self.model.model.vocab (unk_token self.model.model.vocab) aa).length - 1 ∧
      (token_from_piece self.model.model.vocab "<AA2fold>" true ≠ LLAMA_TOKEN_NULL →
        pred_len_of self.model.model.vocab.n_tokens self.model.model.n_cls_out aa.length
          (build_tokens self.model.model.vocab (unk_token self.model.model.vocab) aa).length =
          aa.length + 1) ∧
      (token_from_piece self.model.model.vocab "<AA2fold>" true = LLAMA_TOKEN_NULL →
        pred_len_of self.model.model.vocab.n_tokens self.model.model.n_cls_out aa.length
          (build_tokens self.model.model.vocab (unk_token self.model.model.vocab) aa).length =
          aa.length - 1)) ∧
    ((self.model.model.n_cls_out = 20 ∧ self.model.model.vocab.n_tokens = 28) ∨
        (build_tokens self.model.model.vocab (unk_token self.model.model.vocab) aa).length = 0 →
      pred_len_of self.model.model.vocab.n_tokens self.model.model.n_cls_out aa.length
          (build_tokens self.model.model.vocab (unk_token self.model.model.vocab) aa).length =
        aa.length) := by
  refine ⟨?_, ?_, ?_⟩
  · rw [predict_of_unk self aa hunk]
  · intro hm hpos
    have hpl : pred_len_of self.model.model.vocab.n_tokens self.model.model.n_cls_out aa.length
        (build_tokens self.model.model.vocab (unk_token self.model.model.vocab) aa).length =
        (build_tokens self.model.model.vocab (unk_token self.model.model.vocab) aa).length - 1 := by
      simp only [pred_len_of]
      rw [if_pos ⟨hm, hpos⟩]
    refine ⟨hpl, ?_, ?_⟩
    · intro hs
      rw [hpl, build_tokens_length]
      simp [hs]
    · intro hs
      rw [hpl, build_tokens_length]
      simp [hs]
  · intro h
    simp only [pred_len_of]
    rcases h with h | h
    · simp [h]
    · simp [h]

/-- Witness of the amended C16: N + 1 = 5 on the T5-style session for `ACac`
and N - 1 = 1 on the session without start marker for `AC`. -/
theorem C16_pred_len_witness :
    pred_len_of 150 0 "ACac".length
      (build_tokens t5_vocab (unk_token t5_vocab) "ACac").length = 5 ∧
    pred_len_of 30 20 "AC".length
      (build_tokens plain_vocab (unk_token plain_vocab) "AC").length = 1 :=
  ⟨(((C16_pred_len t5_session "ACac" (by decide)).2.1 (by decide) (by decide)).2.1
      (by decide)).trans (by decide),
    (((C16_pred_len plain_session "AC" (by decide)).2.1 (by decide) (by decide)).2.2
      (by decide)).trans (by decide)⟩


/-! ## Bounds of the argmax scan -/

theorem pair_index_iff (n k i j : Nat) (hi : i < n) :
    j * n + i = k ↔ (i = k % n ∧ j = k / n) := by
  have hn : 0 < n := by omega
  constructor
  · intro h
    subst h
    constructor
    · rw [Nat.mul_comm, Nat.mul_add_mod, Nat.mod_eq_of_lt hi]
    · rw [Nat.mul_comm, Nat.mul_add_div hn, Nat.div_eq_of_lt hi, Nat.add_zero]
  · rintro ⟨h1, h2⟩
    subst h1 h2
    rw [Nat.mul_comm]
    exact Nat.div_add_mod k n

theorem score_idx_eq (tm : Bool) (n pl i j : Nat) (hi : i < n) (hj : j < pl)
    (hfit : pl * n < 2 ^ 64) :
    score_idx tm n pl i j = if tm then j * n + i else i * pl + j := by
  cases tm
  · simpa using score_idx_class_major n pl i j hi hj hfit
  · simpa using score_idx_token_major n pl i j hi hj hfit

theorem score_idx_lt (tm : Bool) (n pl i j : Nat) (hi : i < n) (hj : j < pl)
    (hfit : pl * n < 2 ^ 64) : score_idx tm n pl i j < pl * n := by
  rw [score_idx_eq tm n pl i j hi hj hfit]
  cases tm
  · simp only [Bool.false_eq_true, if_false]
    have h1 : (i + 1) * pl ≤ n * pl := Nat.mul_le_mul_right pl (by omega)
    have h2 : (i + 1) * pl = i * pl + pl := by ring
    have h3 : n * pl = pl * n := Nat.mul_comm _ _
    omega
  · simp only [if_true]
    have h1 : (j + 1) * n ≤ pl * n := Nat.mul_le_mul_right n (by omega)
    have h2 : (j + 1) * n = j * n + n := by ring
    omega

theorem score_idx_unique (tm : Bool) (n pl k : Nat) (hk : k < pl * n) (hfit : pl * n < 2 ^ 64) :
    ∃! p : Nat × Nat, p.1 < n ∧ p.2 < pl ∧ score_idx tm n pl p.1 p.2 = k := by
  have hn : 0 < n := by
    rcases Nat.eq_zero_or_pos n with h | h
    · subst h; simp at hk
    · exact h
  have hp : 0 < pl := by
    rcases Nat.eq_zero_or_pos pl with h | h
    · subst h; simp at hk
    · exact h
  cases tm
  · refine ⟨(k / pl, k % pl), ⟨?_, Nat.mod_lt _ hp, ?_⟩, ?_⟩
    · exact Nat.div_lt_of_lt_mul hk
    · have hi : k / pl < n := Nat.div_lt_of_lt_mul hk
      rw [score_idx_eq false n pl _ _ hi (Nat.mod_lt _ hp) hfit]
      simp only [Bool.false_eq_true, if_false]
      exact (pair_index_iff pl k (k % pl) (k / pl) (Nat.mod_lt _ hp)).2 ⟨rfl, rfl⟩
    · rintro ⟨i, j⟩ ⟨hi, hj, he⟩
      simp only at hi hj he
      rw [score_idx_eq false n pl i j hi hj hfit] at he
      simp only [Bool.false_eq_true, if_false] at he
      obtain ⟨h1, h2⟩ := (pair_index_iff pl k j i hj).1 he
      rw [h1, h2]
  · refine ⟨(k % n, k / n), ⟨Nat.mod_lt _ hn, ?_, ?_⟩, ?_⟩
    · exact Nat.div_lt_of_lt_mul (by rw [Nat.mul_comm]; exact hk)
    · have hj : k / n < pl := Nat.div_lt_of_lt_mul (by rw [Nat.mul_comm]; exact hk)
      rw [score_idx_eq true n pl _ _ (Nat.mod_lt _ hn) hj hfit]
      simp only [if_true]
      exact (pair_index_iff n k (k % n) (k / n) (Nat.mod_lt _ hn)).2 ⟨rfl, rfl⟩
    · rintro ⟨i, j⟩ ⟨hi, hj, he⟩
      simp only at hi hj he
      rw [score_idx_eq true n pl i j hi hj hfit] at he
      simp only [if_true] at he
      obtain ⟨h1, h2⟩ := (pair_index_iff n k i j hi).1 he
      rw [h1, h2]

theorem argmax_scan_length (emb : Nat → F32) (tm : Bool) (n pl : Nat) :
    (argmax_scan emb tm n pl).1.length = pl ∧ (argmax_scan emb tm n pl).2.length = pl := by
  rw [argmax_scan_view]
  simp [cells_view]

theorem argmax_scan_frame (emb emb' : Nat → F32) (tm : Bool) (n pl : Nat)
    (hfit : pl * n < 2 ^ 64) (h : ∀ k, k < pl * n → emb' k = emb k) :
    argmax_scan emb' tm n pl = argmax_scan emb tm n pl := by
  rw [argmax_scan_view, argmax_scan_view]
  unfold cells_view
  congr 1
  · apply range_map_congr
    intro j hj
    show (cell_after (fun i => emb' (score_idx tm n pl i j)) n).1 =
      (cell_after (fun i => emb (score_idx tm n pl i j)) n).1
    rw [cell_after_congr _ (fun i => emb (score_idx tm n pl i j)) n
      (fun i hi => h _ (score_idx_lt tm n pl i j hi hj hfit))]
  · apply range_map_congr
    intro j hj
    show (cell_after (fun i => emb' (score_idx tm n pl i j)) n).2 =
      (cell_after (fun i => emb (score_idx tm n pl i j)) n).2
    rw [cell_after_congr _ (fun i => emb (score_idx tm n pl i j)) n
      (fun i hi => h _ (score_idx_lt tm n pl i j hi hj hfit))]


theorem scan_step_length (emb : Nat → F32) (tm : Bool) (n pl i : Nat)
    (st : List Int × List F32) (j : Nat) :
    (scan_step emb tm n pl i st j).1.length = st.1.length ∧
      (scan_step emb tm n pl i st j).2.length = st.2.length := by
  simp only [scan_step]
  split <;> simp

theorem scan_fold_length (emb : Nat → F32) (tm : Bool) (n pl i : Nat) (l : List Nat)
    (st : List Int × List F32) :
    (l.foldl (scan_step emb tm n pl i) st).1.length = st.1.length ∧
      (l.foldl (scan_step emb tm n pl i) st).2.length = st.2.length := by
  induction l generalizing st with
  | nil => simp
  | cons j js ih =>
    simp only [List.foldl_cons]
    rw [(ih _).1, (ih _).2]
    exact scan_step_length emb tm n pl i st j

theorem scan_step_checked_ok (emb : Nat → F32) (buf : Nat) (tm : Bool) (n pl i : Nat)
    (a : List Int) (m : List F32) (r : List Nat) (j : Nat)
    (ha : j < a.length) (hm : j < m.length) (hidx : score_idx tm n pl i j < buf) :
    scan_step_checked emb buf tm n pl i (some ⟨a, m, r⟩) j =
      some ⟨(scan_step emb tm n pl i (a, m) j).1, (scan_step emb tm n pl i (a, m) j).2,
        r ++ [score_idx tm n pl i j]⟩ := by
  unfold scan_step_checked scan_step
  have hget : m[j]? = some (m.getD j F32.nan) := by
    rw [List.getD_eq_getElem?_getD, List.getElem?_eq_getElem hm]
    rfl
  simp only [hidx, if_true, hget, ha]
  by_cases hgt : (emb (score_idx tm n pl i j)).gt (m.getD j F32.nan) = true
  · simp only [hgt, if_true]
  · simp only [hgt, Bool.false_eq_true, if_false]

theorem inner_loop_checked (emb : Nat → F32) (buf : Nat) (tm : Bool) (n pl i : Nat)
    (hidx : ∀ j, j < pl → score_idx tm n pl i j < buf)
    (k : Nat) (hk : k ≤ pl) (a : List Int) (m : List F32) (r : List Nat)
    (ha : a.length = pl) (hm : m.length = pl) :
    (List.range k).foldl (scan_step_checked emb buf tm n pl i) (some ⟨a, m, r⟩) =
      some ⟨((List.range k).foldl (scan_step emb tm n pl i) (a, m)).1,
        ((List.range k).foldl (scan_step emb tm n pl i) (a, m)).2,
        r ++ (List.range k).map (fun j => score_idx tm n pl i j)⟩ := by
  induction k with
  | zero => simp
  | succ k ih =>
    rw [List.range_succ, List.foldl_append, List.foldl_append, ih (by omega)]
    simp only [List.foldl_cons, List.foldl_nil, List.map_append, List.map_cons, List.map_nil]
    have hl := scan_fold_length emb tm n pl i (List.range k) (a, m)
    rw [scan_step_checked_ok emb buf tm n pl i _ _ _ k (by rw [hl.1, ha]; omega)
      (by rw [hl.2, hm]; omega) (hidx k (by omega))]
    simp

theorem outer_loop_checked (emb : Nat → F32) (buf : Nat) (tm : Bool) (n pl : Nat)
    (k : Nat) (hidx : ∀ i j, i < k → j < pl → score_idx tm n pl i j < buf)
    (a : List Int) (m : List F32) (r : List Nat) (ha : a.length = pl) (hm : m.length = pl) :
    (List.range k).foldl
      (fun st i => (List.range pl).foldl (scan_step_checked emb buf tm n pl i) st)
      (some ⟨a, m, r⟩) =
      some ⟨((List.range k).foldl
          (fun st i => (List.range pl).foldl (scan_step emb tm n pl i) st) (a, m)).1,
        ((List.range k).foldl
          (fun st i => (List.range pl).foldl (scan_step emb tm n pl i) st) (a, m)).2,
        r ++ (List.range k).flatMap
          (fun i => (List.range pl).map (fun j => score_idx tm n pl i j))⟩ := by
  induction k with
  | zero => simp
  | succ k ih =>
    rw [List.range_succ, List.foldl_append, List.foldl_append,
      ih (fun i j hi hj => hidx i j (by omega) hj)]
    simp only [List.foldl_cons, List.foldl_nil]
    have hlen : ∀ (l : List Nat) (st : List Int × List F32),
        (l.foldl (fun st i => (List.range pl).foldl (scan_step emb tm n pl i) st) st).1.length =
          st.1.length ∧
        (l.foldl (fun st i => (List.range pl).foldl (scan_step emb tm n pl i) st) st).2.length =
          st.2.length := by
      intro l
      induction l with
      | nil => intro st; simp
      | cons i is ihl =>
        intro st
        simp only [List.foldl_cons]
        rw [(ihl _).1, (ihl _).2]
        exact scan_fold_length emb tm n pl i (List.range pl) st
    rw [inner_loop_checked emb buf tm n pl k (fun j hj => hidx k j (by omega) hj) pl
      (Nat.le_refl _) _ _ _ (by rw [(hlen _ _).1]; exact ha) (by rw [(hlen _ _).2]; exact hm)]
    simp [List.flatMap_append]

theorem argmax_scan_checked_eq (emb : Nat → F32) (buf : Nat) (tm : Bool) (n pl : Nat)
    (hidx : ∀ i j, i < n → j < pl → score_idx tm n pl i j < buf) :
    argmax_scan_checked emb buf tm n pl =
      some ⟨(argmax_scan emb tm n pl).1, (argmax_scan emb tm n pl).2, scan_reads tm n pl⟩ := by
  unfold argmax_scan_checked argmax_scan scan_reads
  rw [outer_loop_checked emb buf tm n pl n hidx _ _ _ (by simp) (by simp)]
  simp

theorem append_output_checked_eq (idx : List Int) (ol : Nat) (r : String)
    (h : ol ≤ idx.length) :
    append_output_checked idx ol r = some (append_output idx ol r) := by
  unfold append_output_checked append_output
  induction ol with
  | zero => simp
  | succ k ih =>
    rw [List.range_succ, List.foldl_append, List.foldl_append, ih (by omega)]
    simp only [List.foldl_cons, List.foldl_nil]
    have hget : idx[k]? = some (idx.getD k 0) := by
      rw [List.getD_eq_getElem?_getD, List.getElem?_eq_getElem (by omega)]
      rfl
    rw [hget]

theorem encode_checked_eq (ctx : llama_context) (buf : Nat) (inp : List llama_token)
    (pl ol : Nat) (result : String)
    (hfit : pl * ctx_n_classes ctx < 2 ^ 64) (hbuf : pl * ctx_n_classes ctx ≤ buf) :
    encode_checked ctx buf inp pl ol result =
      some (encode ctx inp pl ol result,
        if backend_failed ctx inp = true ∨ pl = 0 ∨ ol = 0 then []
        else scan_reads (token_major_of ctx.model.vocab.n_tokens) (ctx_n_classes ctx) pl) := by
  by_cases hf : backend_failed ctx inp = true
  · rw [encode_of_failed ctx inp pl ol result hf]
    simp only [hf, true_or, if_true]
    unfold encode_checked
    simp only [backend_failed, Bool.or_eq_true, decide_eq_true_eq] at hf
    by_cases h1 : (ctx.run inp).1 < 0
    · simp [llama_encode, h1]
    · have h2 : (ctx.run inp).2 = none := by
        rcases hf with hf | hf
        · exact absurd hf h1
        · simpa using hf
      simp [llama_encode, llama_get_embeddings, h1, h2]
  · have h' : backend_failed ctx inp = false := by simpa using hf
    obtain ⟨h1, emb, h2⟩ := (backend_ok_iff ctx inp).1 h'
    rw [encode_of_ok ctx inp pl ol result emb h1 h2]
    unfold encode_checked
    simp only [llama_encode, llama_get_embeddings, h1, h2, if_false, h', Bool.false_eq_true,
      false_or]
    by_cases hz : pl = 0 ∨ ol = 0
    · simp only [hz, if_true]
    · simp only [hz, if_false]
      have hidx : ∀ i j, i < ctx_n_classes ctx → j < pl →
          score_idx (token_major_of ctx.model.vocab.n_tokens) (ctx_n_classes ctx) pl i j <
            buf := fun i j hi hj =>
        Nat.lt_of_lt_of_le (score_idx_lt _ _ _ i j hi hj hfit) hbuf
      have hscan := argmax_scan_checked_eq emb buf (token_major_of ctx.model.vocab.n_tokens)
        (ctx_n_classes ctx) pl hidx
      unfold ctx_n_classes at hscan
      rw [hscan]
      simp only []
      have hlen := (argmax_scan_length emb (token_major_of ctx.model.vocab.n_tokens)
        (n_classes_of ctx.model.vocab.n_tokens ctx.model.n_cls_out) pl).1
      rw [append_output_checked_eq _ _ _ (by rw [hlen]; split <;> omega)]
      rfl


theorem score_idx_inj (tm : Bool) (n pl i j i2 j2 : Nat) (hfit : pl * n < 2 ^ 64)
    (hi : i < n) (hj : j < pl) (hi2 : i2 < n) (hj2 : j2 < pl)
    (h : score_idx tm n pl i j = score_idx tm n pl i2 j2) : i = i2 ∧ j = j2 := by
  have hk := score_idx_lt tm n pl i2 j2 hi2 hj2 hfit
  have h1 : (i, j).1 < n ∧ (i, j).2 < pl ∧
      score_idx tm n pl (i, j).1 (i, j).2 = score_idx tm n pl i2 j2 := ⟨hi, hj, h⟩
  have h2 : (i2, j2).1 < n ∧ (i2, j2).2 < pl ∧
      score_idx tm n pl (i2, j2).1 (i2, j2).2 = score_idx tm n pl i2 j2 := ⟨hi2, hj2, rfl⟩
  have hu : (i, j) = (i2, j2) := (score_idx_unique tm n pl _ hk hfit).unique h1 h2
  exact ⟨congrArg Prod.fst hu, congrArg Prod.snd hu⟩

theorem mem_scan_reads (tm : Bool) (n pl x : Nat) :
    x ∈ scan_reads tm n pl ↔ ∃ i j, i < n ∧ j < pl ∧ score_idx tm n pl i j = x := by
  unfold scan_reads
  simp only [List.mem_flatMap, List.mem_map, List.mem_range]
  constructor
  · rintro ⟨i, hi, j, hj, h⟩
    exact ⟨i, j, hi, hj, h⟩
  · rintro ⟨i, j, hi, hj, h⟩
    exact ⟨i, hi, j, hj, h⟩

theorem scan_reads_nodup (tm : Bool) (n pl : Nat) (hfit : pl * n < 2 ^ 64) :
    (scan_reads tm n pl).Nodup := by
  unfold scan_reads
  rw [List.nodup_flatMap]
  constructor
  · intro i hi
    have hi' := List.mem_range.1 hi
    apply List.Nodup.map_on _ (List.nodup_range pl)
    intro j hj j2 hj2 h
    exact (score_idx_inj tm n pl i j i j2 hfit hi' (List.mem_range.1 hj) hi'
      (List.mem_range.1 hj2) h).2
  · apply List.Pairwise.imp_of_mem _ (List.nodup_range n)
    intro a b ha hb hab
    show List.Disjoint _ _
    intro x hxa hxb
    obtain ⟨j, hj, e1⟩ := List.mem_map.1 hxa
    obtain ⟨j2, hj2, e2⟩ := List.mem_map.1 hxb
    exact hab (score_idx_inj tm n pl a j b j2 hfit (List.mem_range.1 ha) (List.mem_range.1 hj)
      (List.mem_range.1 hb) (List.mem_range.1 hj2) (e1.trans e2.symm)).1

theorem scan_reads_perm (tm : Bool) (n pl : Nat) (hfit : pl * n < 2 ^ 64) :
    (scan_reads tm n pl).Perm (List.range (pl * n)) := by
  rw [List.perm_ext_iff_of_nodup (scan_reads_nodup tm n pl hfit) (List.nodup_range _)]
  intro x
  rw [mem_scan_reads, List.mem_range]
  constructor
  · rintro ⟨i, j, hi, hj, h⟩
    rw [← h]
    exact score_idx_lt tm n pl i j hi hj hfit
  · intro hx
    obtain ⟨⟨i, j⟩, ⟨hi, hj, h⟩, _⟩ := score_idx_unique tm n pl x hx hfit
    exact ⟨i, j, hi, hj, h⟩


theorem range_map_getD_eq_take {β : Type} (idx : List Int) (f : Int → β) (k : Nat)
    (h : k ≤ idx.length) :
    (List.range k).map (fun i => f (idx.getD i 0)) = (idx.take k).map f := by
  induction k with
  | zero => simp
  | succ k ih =>
    have hk : k < idx.length := by omega
    rw [List.range_succ, List.map_append, ih (by omega), List.take_succ, List.map_append,
      List.getElem?_eq_getElem hk]
    simp [List.getD_eq_getElem?_getD, List.getElem?_eq_getElem hk]

theorem encode_ok_take (ctx : llama_context) (inp : List llama_token) (pl ol : Nat)
    (result : String) (emb : Nat → F32) (h1 : ¬ (ctx.run inp).1 < 0)
    (h2 : (ctx.run inp).2 = some emb) :
    (encode ctx inp pl ol result).result.data =
      result.data ++
        ((argmax_scan emb (token_major_of ctx.model.vocab.n_tokens)
          (ctx_n_classes ctx) pl).1.take (min ol pl)).map
          (fun v => number_to_char (toUInt32 v)) := by
  rw [encode_of_ok ctx inp pl ol result emb h1 h2]
  have hlen := (argmax_scan_length emb (token_major_of ctx.model.vocab.n_tokens)
    (ctx_n_classes ctx) pl).1
  by_cases hz : pl = 0 ∨ ol = 0
  · have hm : min ol pl = 0 := by rcases hz with hz | hz <;> simp [hz]
    simp [hz, hm]
  · simp only [hz, if_false]
    rw [append_output_data]
    have hm : (if ol > pl then pl else ol) = min ol pl := by split <;> omega
    rw [hm]
    congr 1
    exact range_map_getD_eq_take _ (fun v => number_to_char (toUInt32 v)) (min ol pl)
      (by
        show min ol pl ≤ (argmax_scan emb (token_major_of ctx.model.vocab.n_tokens)
          (ctx_n_classes ctx) pl).1.length
        rw [hlen]
        exact Nat.min_le_right _ _)

/-- C18. In `encode`, for every `pred_len`, every class count and both memory
layouts, on a `pred_len x n_classes` matrix of fewer than `2 ^ 64` entries:
every buffer index the scan computes (`j * n_classes + i` when token-major,
`i * pred_len + j` when class-major, with `i < n_classes` and `j < pred_len`)
is below `pred_len * n_classes`, and every index below `pred_len * n_classes`
is the index of exactly one pair `(i, j)`. Run with checked accesses on a
buffer of exactly `pred_len * n_classes` floats, `encode` makes no access
outside the buffer, `arg_max` or `arg_max_idx`, and leaves behind what
`encode` leaves behind; the buffer indices it reads are, when the scan runs,
the indices `0 .. pred_len * n_classes - 1`, each exactly once. The characters
`encode` appends are read from the first `min(output_len, pred_len)` entries
of the vector `arg_max_idx`, which has `pred_len` entries, and the scan does
not depend on the buffer beyond the matrix. -/
theorem C18_scan_in_bounds (ctx : llama_context) (enc_input : List llama_token)
    (pred_len output_len : Nat) (result : String)
    (hfit : pred_len * ctx_n_classes ctx < 2 ^ 64) :
    (∀ (token_major : Bool) (n_classes pl i j : Nat), pl * n_classes < 2 ^ 64 →
      i < n_classes → j < pl →
      score_idx token_major n_classes pl i j =
        (if token_major then j * n_classes + i else i * pl + j) ∧
      score_idx token_major n_classes pl i j < pl * n_classes) ∧
    (∀ (token_major : Bool) (n_classes pl k : Nat), pl * n_classes < 2 ^ 64 →
      k < pl * n_classes →
      ∃! p : Nat × Nat, p.1 < n_classes ∧ p.2 < pl ∧
        score_idx token_major n_classes pl p.1 p.2 = k) ∧
    (∃ reads : List Nat,
      encode_checked ctx (pred_len * ctx_n_classes ctx) enc_input pred_len output_len result =
        some (encode ctx enc_input pred_len output_len result, reads) ∧
      (∀ k, k ∈ reads → k < pred_len * ctx_n_classes ctx) ∧
      (backend_failed ctx enc_input = false → pred_len ≠ 0 → output_len ≠ 0 →
        reads.Perm (List.range (pred_len * ctx_n_classes ctx))) ∧
      (backend_failed ctx enc_input = true ∨ pred_len = 0 ∨ output_len = 0 → reads = [])) ∧
    (∀ emb : Nat → F32, ¬ (ctx.run enc_input).1 < 0 → (ctx.run enc_input).2 = some emb →
      (argmax_scan emb (token_major_of ctx.model.vocab.n_tokens)
        (ctx_n_classes ctx) pred_len).1.length = pred_len ∧
      (argmax_scan emb (token_major_of ctx.model.vocab.n_tokens)
        (ctx_n_classes ctx) pred_len).2.length = pred_len ∧
      (encode ctx enc_input pred_len output_len result).result.data =
        result.data ++
          ((argmax_scan emb (token_major_of ctx.model.vocab.n_tokens)
            (ctx_n_classes ctx) pred_len).1.take (min output_len pred_len)).map
            (fun v => number_to_char (toUInt32 v)) ∧
      (∀ emb2 : Nat → F32, (∀ k, k < pred_len * ctx_n_classes ctx → emb2 k = emb k) →
        argmax_scan emb2 (token_major_of ctx.model.vocab.n_tokens)
            (ctx_n_classes ctx) pred_len =
          argmax_scan emb (token_major_of ctx.model.vocab.n_tokens)
            (ctx_n_classes ctx) pred_len)) := by
  refine ⟨fun tm n pl i j hf hi hj => ⟨score_idx_eq tm n pl i j hi hj hf,
      score_idx_lt tm n pl i j hi hj hf⟩,
    fun tm n pl k hf hk => score_idx_unique tm n pl k hk hf, ?_, ?_⟩
  · refine ⟨_, encode_checked_eq ctx _ enc_input pred_len output_len result hfit
      (Nat.le_refl _), ?_, ?_, ?_⟩
    · intro k hk
      split at hk
      · exact absurd hk (List.not_mem_nil k)
      · obtain ⟨i, j, hi, hj, h⟩ := (mem_scan_reads _ _ _ k).1 hk
        rw [← h]
        exact score_idx_lt _ _ _ i j hi hj hfit
    · intro hok hp ho
      have hc : ¬ (backend_failed ctx enc_input = true ∨ pred_len = 0 ∨ output_len = 0) := by
        rintro (h | h | h)
        · rw [hok] at h; exact Bool.false_ne_true h
        · exact hp h
        · exact ho h
      rw [if_neg hc]
      exact scan_reads_perm _ _ _ hfit
    · intro h
      rw [if_pos h]
  · intro emb h1 h2
    exact ⟨(argmax_scan_length emb _ _ _).1, (argmax_scan_length emb _ _ _).2,
      encode_ok_take ctx enc_input pred_len output_len result emb h1 h2,
      fun emb2 h => argmax_scan_frame emb emb2 _ _ _ hfit h⟩

/-- Witness of C18: the T5-style context (3 positions, 20 classes,
class-major) asked for 5 characters of output. With a buffer of 60 floats the
checked run succeeds and appends 3 characters; with 59 floats it does not. -/
theorem C18_scan_in_bounds_witness :
    (∃ reads : List Nat,
      encode_checked t5_session.ctx (3 * ctx_n_classes t5_session.ctx) [149, 3, 4, 1] 3 5 "" =
        some (encode t5_session.ctx [149, 3, 4, 1] 3 5 "", reads) ∧
      reads.Perm (List.range (3 * ctx_n_classes t5_session.ctx))) ∧
    3 * ctx_n_classes t5_session.ctx = 60 ∧
    (encode_checked t5_session.ctx 60 [149, 3, 4, 1] 3 5 "").map (fun r => r.1.result) =
      some "DFH" ∧
    (encode t5_session.ctx [149, 3, 4, 1] 3 5 "").result = "DFH" ∧
    (encode_checked t5_session.ctx 59 [149, 3, 4, 1] 3 5 "").isNone = true := by
  refine ⟨?_, by decide, by decide, by decide, by decide⟩
  obtain ⟨reads, h1, _, h3, _⟩ :=
    (C18_scan_in_bounds t5_session.ctx [149, 3, 4, 1] 3 5 "" (by decide)).2.2.1
  exact ⟨reads, h1, h3 (by decide) (by decide) (by decide)⟩

theorem cell_after_idx (s : Nat → F32) (k : Nat) :
    ∃ i, (i < k ∨ i = 0) ∧ (cell_after s k).1 = toInt32 i := by
  induction k with
  | zero =>
    have h0 : toInt32 0 = 0 := by decide
    exact ⟨0, Or.inr rfl, by rw [h0]; rfl⟩
  | succ k ih =>
    obtain ⟨i, hi, he⟩ := ih
    rw [cell_after_succ]
    unfold cell_step
    by_cases hgt : (s k).gt (cell_after s k).2 = true
    · exact ⟨k, Or.inl (by omega), by simp [hgt]⟩
    · refine ⟨i, ?_, by simp [hgt, he]⟩
      rcases hi with hi | hi
      · exact Or.inl (by omega)
      · exact Or.inr hi

theorem number_to_char_alphabet (i : Nat) (hi : i < 20) :
    number_to_char i ∈ "ACDEFGHIKLMNPQRSTVWY".data ∧ number_to_char i ≠ 'X' := by
  interval_cases i <;> decide

theorem encode_appended (ctx : llama_context) (inp : List llama_token) (pl ol : Nat)
    (result : String) (c : Char)
    (hc : c ∈ (encode ctx inp pl ol result).result.data.drop result.length) :
    ∃ i, i < ctx_n_classes ctx ∧ c = number_to_char i := by
  by_cases hf : backend_failed ctx inp = true
  · rw [encode_of_failed ctx inp pl ol result hf] at hc
    have hl : result.length = result.data.length := rfl
    rw [hl, List.drop_length] at hc
    exact absurd hc (List.not_mem_nil c)
  · have h' : backend_failed ctx inp = false := by simpa using hf
    obtain ⟨h1, emb, h2⟩ := (backend_ok_iff ctx inp).1 h'
    rw [encode_ok_data ctx inp pl ol result emb h1 h2] at hc
    have hl : result.length = result.data.length := rfl
    rw [hl, List.drop_left] at hc
    obtain ⟨j, _, rfl⟩ := List.mem_map.1 hc
    obtain ⟨i, hi, he⟩ := cell_after_idx (fun i => class_score ctx emb pl i j) (ctx_n_classes ctx)
    have hpos : 1 ≤ ctx_n_classes ctx := n_classes_of_pos _ _
    have hlt : ctx_n_classes ctx < 2 ^ 32 := n_classes_of_lt _ _ ctx.model.n_cls_out_lt
    have hi' : i < ctx_n_classes ctx := by
      rcases hi with hi | hi <;> omega
    exact ⟨i, hi', by rw [he, toUInt32_toInt32 i (by omega)]⟩

/-- C19. Whenever the effective class count is at most 20, every character
that `encode` appends to the result, for every backend outcome and every score
buffer, is `number_to_char` of an index below the class count, so it belongs
to the alphabet `ACDEFGHIKLMNPQRSTVWY` and is never the sentinel `X`. The
default (no reported class count) and the 150-token/1-class override both give
the class count 20. -/
theorem C19_output_alphabet (ctx : llama_context) (enc_input : List llama_token)
    (pred_len output_len : Nat) (result : String) (h20 : ctx_n_classes ctx ≤ 20) :
    (∀ c, c ∈ (encode ctx enc_input pred_len output_len result).result.data.drop result.length →
      (∃ i, i < ctx_n_classes ctx ∧ c = number_to_char i) ∧
      c ∈ "ACDEFGHIKLMNPQRSTVWY".data ∧ c ≠ 'X') ∧
    (encode ctx enc_input pred_len output_len result).result.data.take result.length =
      result.data ∧
    (∀ n_vocab : Int, n_classes_of n_vocab 0 = 20) ∧
    n_classes_of 150 1 = 20 := by
  refine ⟨?_, ?_, ?_, by decide⟩
  · intro c hc
    obtain ⟨i, hi, he⟩ := encode_appended ctx enc_input pred_len output_len result c hc
    refine ⟨⟨i, hi, he⟩, ?_⟩
    rw [he]
    exact number_to_char_alphabet i (by omega)
  · have hl : result.length = result.data.length := rfl
    by_cases hf : backend_failed ctx enc_input = true
    · rw [encode_of_failed ctx enc_input pred_len output_len result hf, hl]
      exact List.take_length _
    · have h' : backend_failed ctx enc_input = false := by simpa using hf
      obtain ⟨h1, emb, h2⟩ := (backend_ok_iff ctx enc_input).1 h'
      rw [encode_ok_data ctx enc_input pred_len output_len result emb h1 h2, hl]
      exact List.take_left _ _
  · intro n_vocab
    simp [n_classes_of]

/-- Witness of C19: the T5-style context (class count 20) decoding 2 of 3
positions after the text `>`; the appended character `F` is in the alphabet. -/
theorem C19_output_alphabet_witness :
    (encode t5_session.ctx [149, 3, 4, 1] 3 2 ">").result = ">DF" ∧
    ('F' ∈ "ACDEFGHIKLMNPQRSTVWY".data ∧ 'F' ≠ 'X') :=
  ⟨by decide,
    ((C19_output_alphabet t5_session.ctx [149, 3, 4, 1] 3 2 ">" (by decide)).1 'F'
      (by decide)).2⟩


/-! ## `string_split` -/

theorem first_index_none (ch : Char) (t : List Char) (h : first_index ch t = none) :
    ch ∉ t ∧ split_chars ch t = [t] := by
  induction t with
  | nil => exact ⟨List.not_mem_nil _, rfl⟩
  | cons c cs ih =>
    unfold first_index at h
    by_cases e : c = ch
    · simp [e] at h
    · simp only [e, if_false, Option.map_eq_none'] at h
      obtain ⟨h1, h2⟩ := ih h
      constructor
      · intro hm
        rcases List.mem_cons.1 hm with hm | hm
        · exact e hm.symm
        · exact h1 hm
      · simp [split_chars, e, h2]

theorem first_index_some (ch : Char) (t : List Char) (k : Nat) (h : first_index ch t = some k) :
    k < t.length ∧ ch ∉ t.take k ∧
      split_chars ch t = t.take k :: split_chars ch (t.drop (k + 1)) := by
  induction t generalizing k with
  | nil => simp [first_index] at h
  | cons c cs ih =>
    unfold first_index at h
    by_cases e : c = ch
    · simp only [e, if_true, Option.some.injEq] at h
      subst h
      simp [split_chars, e]
    · simp only [e, if_false, Option.map_eq_some'] at h
      obtain ⟨k', hk', rfl⟩ := h
      obtain ⟨h1, h2, h3⟩ := ih k' hk'
      refine ⟨by simp; omega, ?_, ?_⟩
      · intro hm
        simp only [List.take_succ_cons] at hm
        rcases List.mem_cons.1 hm with hm | hm
        · exact e hm.symm
        · exact h2 hm
      · simp [split_chars, e, h3]

theorem string_split_loop_eq (input : String) (sep : Char) (hlen : input.data.length < 2 ^ 64)
    (fuel b : Nat) (parts : List String) (hb : b ≤ input.data.length)
    (hfuel : input.data.length - b < fuel) :
    string_split_loop input sep fuel b (str_find input sep b) parts =
      some (parts ++ (split_chars sep (input.data.drop b)).map String.mk) := by
  induction fuel generalizing b parts with
  | zero => omega
  | succ fuel ih =>
    unfold string_split_loop
    cases hfi : first_index sep (input.data.drop b) with
    | none =>
      obtain ⟨_, hsp⟩ := first_index_none sep _ hfi
      have hfind : str_find input sep b = npos := by simp [str_find, hfi]
      rw [hfind, hsp]
      have htake : (input.data.drop b).take (npos - b) = input.data.drop b := by
        apply List.take_of_length_le
        simp only [List.length_drop, npos]
        omega
      simp [str_substr, htake]
    | some k =>
      obtain ⟨hk, _, hsp⟩ := first_index_some sep _ k hfi
      have hk' : b + k < input.data.length := by
        simp only [List.length_drop] at hk
        omega
      have hfind : str_find input sep b = b + k := by simp [str_find, hfi]
      have hne : b + k ≠ npos := by
        simp only [npos]
        omega
      rw [hfind, if_pos hne]
      simp only []
      rw [ih (b + k + 1) _ (by omega) (by omega), hsp]
      have hd : (input.data.drop b).drop (k + 1) = input.data.drop (b + k + 1) := by
        rw [List.drop_drop]
        congr 1
      simp [str_substr, hd]

theorem string_split_eq (input : String) (sep : Char) (hlen : input.length < 2 ^ 64) :
    string_split input sep = some ((split_chars sep input.data).map String.mk) := by
  unfold string_split
  have hl : input.length = input.data.length := rfl
  rw [string_split_loop_eq input sep (by rw [← hl]; exact hlen) _ 0 [] (by omega)
    (by rw [hl]; omega)]
  simp

theorem split_chars_ne_nil (sep : Char) (l : List Char) : split_chars sep l ≠ [] := by
  induction l with
  | nil => simp [split_chars]
  | cons c cs ih =>
    unfold split_chars
    split
    · simp
    · split <;> simp

theorem split_chars_not_mem (sep : Char) (l : List Char) :
    ∀ p, p ∈ split_chars sep l → sep ∉ p := by
  induction l with
  | nil =>
    intro p hp
    simp [split_chars] at hp
    subst hp
    simp
  | cons c cs ih =>
    intro p hp
    unfold split_chars at hp
    by_cases e : c = sep
    · simp only [e, if_true] at hp
      rcases List.mem_cons.1 hp with hp | hp
      · subst hp; simp
      · exact ih p hp
    · simp only [e, if_false] at hp
      cases hs : split_chars sep cs with
      | nil => exact absurd hs (split_chars_ne_nil sep cs)
      | cons q qs =>
        rw [hs] at hp ih
        simp only at hp
        rcases List.mem_cons.1 hp with hp | hp
        · subst hp
          intro hm
          rcases List.mem_cons.1 hm with hm | hm
          · exact e hm.symm
          · exact ih q (List.mem_cons_self _ _) hm
        · exact ih p (List.mem_cons_of_mem _ hp)

theorem split_chars_length (sep : Char) (l : List Char) :
    (split_chars sep l).length = l.count sep + 1 := by
  induction l with
  | nil => simp [split_chars]
  | cons c cs ih =>
    unfold split_chars
    by_cases e : c = sep
    · simp [e, ih]
    · have e' : (c == sep) = false := by simpa using e
      simp only [e, if_false]
      cases hs : split_chars sep cs with
      | nil => exact absurd hs (split_chars_ne_nil sep cs)
      | cons q qs =>
        rw [hs] at ih
        simp only [List.length_cons] at ih ⊢
        rw [List.count_cons, e']
        simpa using ih

theorem join_split_chars (sep : Char) (l : List Char) :
    join_chars sep (split_chars sep l) = l := by
  induction l with
  | nil => simp [split_chars, join_chars]
  | cons c cs ih =>
    unfold split_chars
    by_cases e : c = sep
    · simp only [e, if_true]
      cases hs : split_chars sep cs with
      | nil => exact absurd hs (split_chars_ne_nil sep cs)
      | cons q qs =>
        rw [hs] at ih
        simp [join_chars, ih]
    · simp only [e, if_false]
      cases hs : split_chars sep cs with
      | nil => exact absurd hs (split_chars_ne_nil sep cs)
      | cons q qs =>
        rw [hs] at ih
        cases qs with
        | nil =>
          simp only [join_chars] at ih ⊢
          rw [ih]
        | cons r rs =>
          simp only [join_chars] at ih ⊢
          rw [← ih]
          simp


theorem intercalate_go_data (sep : String) (acc : String) (ps : List String) :
    (String.intercalate.go acc sep ps).data =
      acc.data ++ (ps.map (fun p => sep.data ++ p.data)).flatten := by
  induction ps generalizing acc with
  | nil => simp [String.intercalate.go]
  | cons p ps ih =>
    simp only [String.intercalate.go, List.map_cons, List.flatten_cons]
    rw [ih]
    simp [String.data_append]

theorem join_chars_cons (sep : Char) (p : List Char) (ps : List (List Char)) :
    join_chars sep (p :: ps) = p ++ (ps.map (fun q => [sep] ++ q)).flatten := by
  induction ps generalizing p with
  | nil => simp [join_chars]
  | cons q qs ih =>
    simp only [join_chars, List.map_cons, List.flatten_cons]
    rw [ih q]
    simp

theorem intercalate_mk (sep : Char) (ps : List (List Char)) :
    (String.intercalate (String.singleton sep) (ps.map String.mk)).data = join_chars sep ps := by
  cases ps with
  | nil => rfl
  | cons p ps =>
    simp only [List.map_cons, String.intercalate]
    rw [intercalate_go_data, join_chars_cons]
    congr 1
    rw [List.map_map]
    rfl

theorem split_parts_isEmpty (c : Char) (l : List Char) :
    ((split_chars c l).map String.mk).isEmpty = false := by
  cases h : split_chars c l with
  | nil => exact absurd h (split_chars_ne_nil c l)
  | cons q qs => rfl

/-- C20. For every string `s` (of a length below `2 ^ 64`, as every
`std::string` has) and separator character `c`, `string_split(s, c)` returns,
within its fuel, a non-empty list of parts, none of which contains `c`, whose
number is one more than the number of occurrences of `c` in `s`, and joining
the parts with `c` gives back `s`; so `empty()` is false on the list, and the
branch `dev_names.empty()` of `parse_device_list` is never taken. -/
theorem C20_string_split (s : String) (c : Char) (hlen : s.length < 2 ^ 64) :
    ∃ parts, string_split s c = some parts ∧
      parts ≠ [] ∧
      (∀ p, p ∈ parts → c ∉ p.data) ∧
      parts.length = s.data.count c + 1 ∧
      String.intercalate (String.singleton c) parts = s ∧
      parts.isEmpty = false := by
  refine ⟨(split_chars c s.data).map String.mk, string_split_eq s c hlen, ?_, ?_, ?_, ?_, ?_⟩
  · intro h
    exact split_chars_ne_nil c s.data (List.map_eq_nil_iff.1 h)
  · intro p hp
    obtain ⟨q, hq, rfl⟩ := List.mem_map.1 hp
    exact split_chars_not_mem c s.data q hq
  · rw [List.length_map, split_chars_length]
  · apply String.ext
    rw [intercalate_mk, join_split_chars]
  · exact split_parts_isEmpty c s.data

/-- Witness of C20: the string `a,b,,c` gives four parts, one of them empty. -/
theorem C20_string_split_witness :
    ∃ parts, string_split "a,b,,c" ',' = some parts ∧
      parts ≠ [] ∧
      (∀ p, p ∈ parts → ',' ∉ p.data) ∧
      parts.length = "a,b,,c".data.count ',' + 1 ∧
      String.intercalate (String.singleton ',') parts = "a,b,,c" ∧
      parts.isEmpty = false :=
  C20_string_split "a,b,,c" ',' (by decide)


/-! ## Device selection -/

theorem string_split_single (value : String) (hlen : value.length < 2 ^ 64) (p : String)
    (h : string_split value ',' = some [p]) : p = value := by
  rw [string_split_eq value ',' hlen] at h
  have h1 : (split_chars ',' value.data).map String.mk = [p] := Option.some.inj h
  cases hs : split_chars ',' value.data with
  | nil => exact absurd hs (split_chars_ne_nil _ _)
  | cons q qs =>
    rw [hs] at h1
    cases qs with
    | nil =>
      have hj := join_split_chars ',' value.data
      rw [hs] at hj
      simp only [join_chars] at hj
      simp only [List.map_cons, List.map_nil, List.cons.injEq, and_true] at h1
      rw [← h1]
      exact String.ext hj
    | cons r rs => simp at h1

theorem parse_fold_eq (reg : ggml_backend_registry) (entries : List String)
    (init : List ggml_backend_dev_t) :
    entries.foldl (parse_device_step reg) init =
      init ++ (entries.filterMap (accepted_device reg)).map some := by
  induction entries generalizing init with
  | nil => simp
  | cons e es ih =>
    simp only [List.foldl_cons]
    rw [ih]
    unfold parse_device_step accepted_device
    cases hb : reg.by_name (c_str e) with
    | none => simp [List.filterMap_cons, accepted_device, hb]
    | some d =>
      by_cases ht : d.type = ggml_backend_dev_type.GPU
      · simp [List.filterMap_cons, accepted_device, hb, ht]
      · simp [List.filterMap_cons, accepted_device, hb, ht]

theorem accepted_device_gpu (reg : ggml_backend_registry) (e : String)
    (d : ggml_backend_device) (h : accepted_device reg e = some d) :
    reg.by_name (c_str e) = some d ∧ d.type = ggml_backend_dev_type.GPU := by
  unfold accepted_device at h
  cases hb : reg.by_name (c_str e) with
  | none => simp [hb] at h
  | some d' =>
    rw [hb] at h
    by_cases ht : d'.type = ggml_backend_dev_type.GPU
    · simp only [ht, if_true, Option.some.injEq] at h
      subst h
      exact ⟨rfl, ht⟩
    · simp [ht] at h

theorem parse_device_list_eq (reg : ggml_backend_registry) (value : String)
    (hlen : value.length < 2 ^ 64) :
    ∃ entries, string_split value ',' = some entries ∧
      parse_device_list reg value =
        some (if value = "none" then [none]
          else (entries.filterMap (accepted_device reg)).map some ++ [none]) := by
  have hsplit := string_split_eq value ',' hlen
  have hemp := split_parts_isEmpty ',' value.data
  generalize (split_chars ',' value.data).map String.mk = entries at hsplit hemp
  refine ⟨entries, hsplit, ?_⟩
  unfold parse_device_list
  rw [hsplit]
  simp only [hemp, Bool.false_eq_true, if_false, List.nil_append]
  by_cases hv : value = "none"
  · subst hv
    have : entries = ["none"] := by
      have h2 : string_split "none" ',' = some ["none"] := by decide
      rw [h2] at hsplit
      exact (Option.some.inj hsplit).symm
    subst this
    simp
  · have hcond : ¬ (entries.length = 1 ∧ entries.getD 0 "" = "none") := by
      rintro ⟨h1, h2⟩
      cases entries with
      | nil => simp at h1
      | cons p ps =>
        cases ps with
        | nil =>
          have := string_split_single value hlen p hsplit
          simp at h2
          exact hv (this ▸ h2)
        | cons q qs => simp at h1
    rw [if_neg hcond, parse_fold_eq]
    simp [hv]


/-- C13. For every device selector string (of a length below `2 ^ 64`, as
every `std::string` has), `parse_device_list` returns the devices of the
comma-separated entries that resolve to a GPU-class device, in input order,
followed by one null sentinel, which is the last element and occurs nowhere
else; entries that do not resolve or resolve to a device of another class are
dropped; and the literal `none` gives the list holding only the sentinel. -/
theorem C13_parse_device_list (reg : ggml_backend_registry) (value : String)
    (hlen : value.length < 2 ^ 64) :
    ∃ entries devs, string_split value ',' = some entries ∧
      parse_device_list reg value = some (devs.map some ++ [none]) ∧
      (value = "none" → devs = []) ∧
      (value ≠ "none" → devs = entries.filterMap (accepted_device reg)) ∧
      (∀ d, d ∈ devs → d.type = ggml_backend_dev_type.GPU ∧
        ∃ e, e ∈ entries ∧ reg.by_name (c_str e) = some d) ∧
      (∀ e, e ∈ entries →
        (reg.by_name (c_str e) = none ∨
          ∃ d, reg.by_name (c_str e) = some d ∧ d.type ≠ ggml_backend_dev_type.GPU) →
        accepted_device reg e = none) := by
  obtain ⟨entries, hsplit, hparse⟩ := parse_device_list_eq reg value hlen
  by_cases hv : value = "none"
  · refine ⟨entries, [], hsplit, ?_, fun _ => rfl, fun h => absurd hv h, ?_, ?_⟩
    · rw [hparse]; simp [hv]
    · intro d hd
      exact absurd hd (List.not_mem_nil d)
    · intro e _ h
      unfold accepted_device
      rcases h with h | ⟨d, h, ht⟩
      · simp [h]
      · simp [h, ht]
  · refine ⟨entries, entries.filterMap (accepted_device reg), hsplit, ?_,
      fun h => absurd h hv, fun _ => rfl, ?_, ?_⟩
    · rw [hparse]; simp [hv]
    · intro d hd
      obtain ⟨e, he, hacc⟩ := List.mem_filterMap.1 hd
      obtain ⟨h1, h2⟩ := accepted_device_gpu reg e d hacc
      exact ⟨h2, e, he, h1⟩
    · intro e _ h
      unfold accepted_device
      rcases h with h | ⟨d, h, ht⟩
      · simp [h]
      · simp [h, ht]

/-- Witness of C13: an unresolvable name and a CPU device are dropped, the two
GPU devices are kept in input order, and the sentinel ends the list. -/
theorem C13_parse_device_list_witness :
    parse_device_list demo_registry "CUDA1,foo,CPU,CUDA0" =
      some [some ⟨"CUDA1", "gpu one", ggml_backend_dev_type.GPU, 0, 0⟩,
        some ⟨"CUDA0", "gpu zero", ggml_backend_dev_type.GPU, 4, 8⟩, none] ∧
    parse_device_list demo_registry "none" = some [none] := by
  obtain ⟨entries, devs, h1, h2, _, h4, _, _⟩ :=
    C13_parse_device_list demo_registry "CUDA1,foo,CPU,CUDA0" (by decide)
  obtain ⟨entries0, devs0, _, k2, k3, _, _, _⟩ :=
    C13_parse_device_list demo_registry "none" (by decide)
  constructor
  · have he : string_split "CUDA1,foo,CPU,CUDA0" ',' =
        some ["CUDA1", "foo", "CPU", "CUDA0"] := by decide
    rw [he] at h1
    have hent : entries = ["CUDA1", "foo", "CPU", "CUDA0"] := (Option.some.inj h1).symm
    rw [h2, h4 (by decide), hent]
    decide
  · rw [k2, k3 rfl]
    rfl


theorem count_gpus_fold (devs : List ggml_backend_device) (init : Int)
    (h : ∀ d, d ∈ devs → d.type = ggml_backend_dev_type.GPU) :
    (devs.map some ++ [none]).foldl count_gpus_step init = init + (devs.length : Int) := by
  induction devs generalizing init with
  | nil => simp [count_gpus_step]
  | cons d ds ih =>
    simp only [List.map_cons, List.cons_append, List.foldl_cons]
    rw [ih _ (fun d' hd' => h d' (List.mem_cons_of_mem _ hd'))]
    simp only [count_gpus_step, h d (List.mem_cons_self _ _), if_true, List.length_cons]
    push_cast
    omega

theorem count_gpus_accepted (devs : List ggml_backend_device)
    (h : ∀ d, d ∈ devs → d.type = ggml_backend_dev_type.GPU) :
    count_gpus (devs.map some ++ [none]) = (devs.length : Int) := by
  unfold count_gpus
  rw [count_gpus_fold devs 0 h]
  simp

/-- C14. For every device selector string (of a length below `2 ^ 64`), the
constructor loads the model with parameters whose `n_gpu_layers` is 24 or 0:
it is 24 if and only if `parse_device_list` accepted at least one device, that
is, the string is not the literal `none` and at least one comma-separated
entry resolves to a GPU-class device; it is 0 otherwise. The count `gpus` is
the number of accepted devices, at most the number of entries. -/
theorem C14_gpu_layers {α : Type} (load : String → llama_model_params → α)
    (reg : ggml_backend_registry) (defaults : llama_model_params)
    (model_file device : String) (hlen : device.length < 2 ^ 64) :
    ∃ entries devices mparams,
      string_split device ',' = some entries ∧
      parse_device_list reg device = some devices ∧
      model_load_params reg defaults device = some mparams ∧
      ProstT5Model_create load reg defaults model_file device = some (load model_file mparams) ∧
      (mparams.n_gpu_layers = 24 ∨ mparams.n_gpu_layers = 0) ∧
      (mparams.n_gpu_layers = 24 ↔ ∃ d, some d ∈ devices) ∧
      (mparams.n_gpu_layers = 24 ↔
        (device ≠ "none" ∧ ∃ e d, e ∈ entries ∧ reg.by_name (c_str e) = some d ∧
          d.type = ggml_backend_dev_type.GPU)) ∧
      (mparams.n_gpu_layers = 0 ↔ ¬ ∃ d, some d ∈ devices) ∧
      (0 ≤ count_gpus devices ∧ count_gpus devices ≤ (entries.length : Int)) ∧
      mparams.use_mmap = true ∧ mparams.devices = some devices := by
  obtain ⟨entries, hsplit, hparse⟩ := parse_device_list_eq reg device hlen
  -- the accepted devices
  obtain ⟨devs, hdevs, hgpu, hmem, hle⟩ : ∃ devs : List ggml_backend_device,
      parse_device_list reg device = some (devs.map some ++ [none]) ∧
      (∀ d, d ∈ devs → d.type = ggml_backend_dev_type.GPU) ∧
      ((∃ d, d ∈ devs) ↔ (device ≠ "none" ∧ ∃ e d, e ∈ entries ∧
        reg.by_name (c_str e) = some d ∧ d.type = ggml_backend_dev_type.GPU)) ∧
      devs.length ≤ entries.length := by
    by_cases hv : device = "none"
    · refine ⟨[], by rw [hparse]; simp [hv], fun d hd => absurd hd (List.not_mem_nil d), ?_,
        Nat.zero_le _⟩
      constructor
      · rintro ⟨d, hd⟩
        exact absurd hd (List.not_mem_nil d)
      · rintro ⟨h, _⟩
        exact absurd hv h
    · refine ⟨entries.filterMap (accepted_device reg), by rw [hparse]; simp [hv], ?_, ?_,
        List.length_filterMap_le _ _⟩
      · intro d hd
        obtain ⟨e, _, hacc⟩ := List.mem_filterMap.1 hd
        exact (accepted_device_gpu reg e d hacc).2
      · constructor
        · rintro ⟨d, hd⟩
          obtain ⟨e, he, hacc⟩ := List.mem_filterMap.1 hd
          obtain ⟨h1, h2⟩ := accepted_device_gpu reg e d hacc
          exact ⟨hv, e, d, he, h1, h2⟩
        · rintro ⟨_, e, d, he, h1, h2⟩
          refine ⟨d, List.mem_filterMap.2 ⟨e, he, ?_⟩⟩
          simp [accepted_device, h1, h2]
  have hcount := count_gpus_accepted devs hgpu
  have hsome : (∃ d, some d ∈ devs.map some ++ [none]) ↔ ∃ d, d ∈ devs := by
    constructor
    · rintro ⟨d, hd⟩
      rcases List.mem_append.1 hd with hd | hd
      · obtain ⟨d', hd', he⟩ := List.mem_map.1 hd
        exact ⟨d', hd'⟩
      · simp at hd
    · rintro ⟨d, hd⟩
      exact ⟨d, List.mem_append.2 (Or.inl (List.mem_map.2 ⟨d, hd, rfl⟩))⟩
  have hpos : (0 < (devs.length : Int)) ↔ ∃ d, d ∈ devs := by
    constructor
    · intro h
      cases devs with
      | nil => simp at h
      | cons d ds => exact ⟨d, List.mem_cons_self _ _⟩
    · rintro ⟨d, hd⟩
      cases devs with
      | nil => exact absurd hd (List.not_mem_nil d)
      | cons d ds =>
        simp only [List.length_cons]
        omega
  have hne : (devs.map some ++ [none]).isEmpty = false := by
    cases devs <;> rfl
  by_cases hg : 0 < (devs.length : Int)
  · have hmp : model_load_params reg defaults device =
        some { devices := some (devs.map some ++ [none]), n_gpu_layers := 24,
               use_mmap := true } := by
      unfold model_load_params
      rw [hdevs]
      simp [hne, hcount, hg]
    refine ⟨entries, _, _, hsplit, hdevs, hmp, ?_, Or.inl rfl, ?_, ?_, ?_, ?_, rfl, rfl⟩
    · unfold ProstT5Model_create
      rw [hmp]
    · exact ⟨fun _ => hsome.2 (hpos.1 hg), fun _ => rfl⟩
    · exact ⟨fun _ => hmem.1 (hpos.1 hg), fun _ => rfl⟩
    · constructor
      · intro h
        exact absurd h (by decide : ¬ ((24 : Int) = 0))
      · intro h
        exact absurd (hsome.2 (hpos.1 hg)) h
    · rw [hcount]
      exact ⟨by omega, by exact_mod_cast hle⟩
  · have hmp : model_load_params reg defaults device =
        some { devices := some (devs.map some ++ [none]), n_gpu_layers := 0,
               use_mmap := true } := by
      unfold model_load_params
      rw [hdevs]
      simp [hne, hcount, hg]
    have hnone : ¬ ∃ d, d ∈ devs := fun h => hg (hpos.2 h)
    refine ⟨entries, _, _, hsplit, hdevs, hmp, ?_, Or.inr rfl, ?_, ?_, ?_, ?_, rfl, rfl⟩
    · unfold ProstT5Model_create
      rw [hmp]
    · constructor
      · intro h
        exact absurd h (by decide : ¬ ((0 : Int) = 24))
      · intro h
        exact absurd (hsome.1 h) hnone
    · constructor
      · intro h
        exact absurd h (by decide : ¬ ((0 : Int) = 24))
      · intro h
        exact absurd (hmem.2 h) hnone
    · exact ⟨fun _ h => hnone (hsome.1 h), fun _ => rfl⟩
    · rw [hcount]
      exact ⟨by omega, by exact_mod_cast hle⟩


/-- Witness of C14: one GPU entry among two gives 24 layers, a CPU entry
alone gives 0. -/
theorem C14_gpu_layers_witness :
    (∃ mparams, model_load_params demo_registry demo_defaults "CUDA0,CPU" = some mparams ∧
      (mparams.n_gpu_layers = 24 ∨ mparams.n_gpu_layers = 0)) ∧
    (model_load_params demo_registry demo_defaults "CUDA0,CPU").map
      (fun p => p.n_gpu_layers) = some 24 ∧
    (model_load_params demo_registry demo_defaults "CPU").map
      (fun p => p.n_gpu_layers) = some 0 ∧
    (model_load_params demo_registry demo_defaults "none").map
      (fun p => p.n_gpu_layers) = some 0 := by
  refine ⟨?_, by decide, by decide, by decide⟩
  obtain ⟨_, _, mparams, _, _, h, _, h2, _⟩ :=
    C14_gpu_layers (fun (_ : String) (p : llama_model_params) => p) demo_registry demo_defaults
      "model.gguf" "CUDA0,CPU" (by decide)
  exact ⟨mparams, h, h2⟩

theorem has_substring_iff (needle l : List Char) :
    has_substring needle l = true ↔ needle <:+: l := by
  induction l with
  | nil => simp [has_substring, List.isEmpty_iff]
  | cons c cs ih =>
    simp only [has_substring, Bool.or_eq_true, List.isPrefixOf_iff_prefix, ih, List.infix_cons_iff]

theorem get_devices_step_eq (devices : List String) (dev : ggml_backend_device) :
    get_devices_step devices dev =
      if device_hidden dev then devices else devices ++ [dev.name] := by
  unfold get_devices_step device_hidden
  by_cases hn : dev.name = "Metal"
  · simp only [hn, if_true, true_and, Bool.or_eq_true, Bool.and_eq_true, decide_eq_true_eq,
      has_substring_iff]
  · simp [hn]

theorem get_devices_fold (devs : List ggml_backend_device) (init : List String) :
    devs.foldl get_devices_step init =
      init ++ (devs.filter (fun d => decide (¬ device_hidden d))).map (fun d => d.name) := by
  induction devs generalizing init with
  | nil => simp
  | cons d ds ih =>
    simp only [List.foldl_cons]
    rw [ih, get_devices_step_eq]
    by_cases h : device_hidden d
    · simp [List.filter_cons, h]
    · simp [List.filter_cons, h]

/-- C17. `getDevices` lists the names of the enumerated devices, in
enumeration order, except the hidden ones; a device is hidden if and only if
its name is `Metal` and either its description is empty or contains
`Paravirtual`, or `memory_free` and `memory_total` are both 0; a device with
any other name is always listed. -/
theorem C17_get_devices (reg : ggml_backend_registry) :
    getDevices reg =
      (reg.devices.filter (fun d => decide (¬ device_hidden d))).map (fun d => d.name) ∧
    (∀ (devices : List String) (dev : ggml_backend_device),
      (get_devices_step devices dev = devices ↔ device_hidden dev) ∧
      (¬ device_hidden dev → get_devices_step devices dev = devices ++ [dev.name])) ∧
    (∀ dev, device_hidden dev ↔
      dev.name = "Metal" ∧
        ((dev.description.length = 0 ∨ ∃ s t, dev.description.data = s ++ "Paravirtual".data ++ t) ∨
          (dev.memory_free = 0 ∧ dev.memory_total = 0))) ∧
    (∀ dev, dev ∈ reg.devices → dev.name ≠ "Metal" → dev.name ∈ getDevices reg) := by
  have hfold : getDevices reg =
      (reg.devices.filter (fun d => decide (¬ device_hidden d))).map (fun d => d.name) := by
    unfold getDevices
    rw [get_devices_fold]
    simp
  refine ⟨hfold, ?_, ?_, ?_⟩
  · intro devices dev
    rw [get_devices_step_eq]
    by_cases h : device_hidden dev
    · simp [h]
    · simp [h]
  · intro dev
    unfold device_hidden
    constructor
    · rintro ⟨h1, h2⟩
      refine ⟨h1, ?_⟩
      rcases h2 with (h2 | ⟨s, t, h2⟩) | h2
      · exact Or.inl (Or.inl h2)
      · exact Or.inl (Or.inr ⟨s, t, h2.symm⟩)
      · exact Or.inr h2
    · rintro ⟨h1, h2⟩
      refine ⟨h1, ?_⟩
      rcases h2 with (h2 | ⟨s, t, h2⟩) | h2
      · exact Or.inl (Or.inl h2)
      · exact Or.inl (Or.inr ⟨s, t, h2.symm⟩)
      · exact Or.inr h2
  · intro dev hdev hname
    rw [hfold]
    apply List.mem_map.2
    refine ⟨dev, List.mem_filter.2 ⟨hdev, ?_⟩, rfl⟩
    have : ¬ device_hidden dev := fun h => hname h.1
    simpa using this


/-- Witness of C17: of two Metal reports the one with a `Paravirtual`
description is hidden; the other devices are listed in order. -/
theorem C17_get_devices_witness :
    getDevices demo_registry = ["CPU", "CUDA0", "CUDA1", "Metal"] :=
  ((C17_get_devices demo_registry).1).trans (by decide)


end ProstT5
